import Mathlib

/-!
Verification development for the component reflection / serialization engine
of `bevy_granite` (`crates/bevy_granite_core/src/entities/component_editor.rs`).

The Rust code is shallowly embedded over `Str := List Char`:

* Rust `String` / `&str` operations (`find`, `rfind`, `replace`, `trim`,
  `split`, `starts_with`) are re-implemented here on `List Char` with the same
  semantics.
* `ron::Value` (the generic structured-value tree) is the inductive `RonValue`;
  `ron::to_string` on values is `ronToStr`, `ron::from_str` is `ronFromStr`
  (a recursive-descent parser over the RON grammar fragment the editor
  exercises; fuel makes the recursion structural, and the exported wrappers
  pick a fuel large enough for any input they are given).
* Reflected component instances (`dyn PartialReflect` data) are the inductive
  `RValue`; a type registration's reflection schema is `TypeShape`.
  The output of `ron::to_string(ReflectSerializer::new(..))` — a one-entry
  map from the full type path to the value's RON text — is
  `reflectSerializeText`; `TypedReflectDeserializer` (and the plain
  `ReflectDeserialize` strategy, which follows the same grammar for the
  shapes modelled here) is `typedReflectDeserialize`.
* The `World`/`Entity` pair is modelled as the association list of the
  entity's components, `EntityComps := List (Str × RValue)`; `apply` vs
  `insert` becomes replace-in-place vs append.
* Logging is dropped; the success/failure counters that
  `load_components_from_scene_data` logs are returned as data.
* A Rust panic (`expect`) is modelled explicitly with `PanicOr`.
-/

abbrev Str := List Char

/-- Convert a Lean string literal to the `List Char` representation. -/
def lit (s : String) : Str := s.data

/-- Left brace character (0x7b). -/
def lbrace : Char := Char.ofNat 123

/-- Right brace character (0x7d). -/
def rbrace : Char := Char.ofNat 125

/-- ASCII whitespace, the fragment of Rust `char::is_whitespace` relevant here. -/
def isWs (c : Char) : Bool := c == ' ' || c == '\t' || c == '\n' || c == '\r'

/-- Model of Rust `str::trim_start` (ASCII fragment). -/
def trimStartS : Str → Str
  | [] => []
  | c :: cs => if isWs c then trimStartS cs else c :: cs

/-- Model of Rust `str::trim_end` (ASCII fragment). -/
def trimEndS (s : Str) : Str := (trimStartS s.reverse).reverse

/-- Model of Rust `str::trim` (ASCII fragment). -/
def trimS (s : Str) : Str := trimEndS (trimStartS s)

/-- Model of Rust `str::find(pattern)`: index of the first occurrence of
`pat` as a contiguous substring. -/
def findSubstrIdx (pat : Str) : Str → Option Nat
  | [] => if pat.isEmpty then some 0 else none
  | c :: cs =>
    if pat.isPrefixOf (c :: cs) then some 0
    else (findSubstrIdx pat cs).map (· + 1)

/-- Model of Rust `str::contains(pattern)`. -/
def containsSub (s pat : Str) : Bool := (findSubstrIdx pat s).isSome

/-- Model of Rust `str::rfind(char)`: index of the last occurrence of `c`. -/
def rfindChar (c : Char) (s : Str) : Option Nat :=
  (findSubstrIdx [c] s.reverse).map (fun i => s.length - 1 - i)

/-- Everything strictly before the first occurrence of `c`
(model of `split(c).next()` on a Rust `str`). -/
def upToChar (c : Char) : Str → Str
  | [] => []
  | x :: xs => if x == c then [] else x :: upToChar c xs

/-- Fueled worker for `replaceAll`.  Scans left to right; at a match the
pattern is replaced and scanning resumes after the replacement, exactly as
Rust `str::replace` does. -/
def replaceAllF (pat rep : Str) : Nat → Str → Str
  | 0, s => s
  | _ + 1, [] => []
  | fuel + 1, c :: cs =>
    if !pat.isEmpty && pat.isPrefixOf (c :: cs) then
      rep ++ replaceAllF pat rep fuel ((c :: cs).drop pat.length)
    else
      c :: replaceAllF pat rep fuel cs

/-- Model of Rust `str::replace(pat, rep)` (for non-empty patterns). -/
def replaceAll (pat rep s : Str) : Str := replaceAllF pat rep (s.length + 1) s

/-- ASCII decimal digit. -/
def isDigitC (c : Char) : Bool := decide (48 ≤ c.toNat ∧ c.toNat ≤ 57)

/-- ASCII letter. -/
def isAlphaC (c : Char) : Bool :=
  decide ((65 ≤ c.toNat ∧ c.toNat ≤ 90) ∨ (97 ≤ c.toNat ∧ c.toNat ≤ 122))

/-- Digits, sign, decimal point and exponent: the characters a RON numeric
literal may continue with. -/
def isNumChar (c : Char) : Bool :=
  isDigitC c || c == '.' || c == '-' || c == '+' || c == 'e'

/-- Characters a RON numeric literal may start with. -/
def isNumStart (c : Char) : Bool := isDigitC c || c == '-'

/-- Characters a RON identifier may continue with. -/
def isIdentChar (c : Char) : Bool := isAlphaC c || isDigitC c || c == '_'

/-- Characters a RON identifier may start with. -/
def isIdentStart (c : Char) : Bool := isAlphaC c || c == '_'

/-- The generic structured-value tree: model of `ron::Value` restricted to the
shapes the editor's fallback path distinguishes (string, unit, map, sequence,
plus numeric and boolean leaves).  Numeric literals are kept as their source
token so that no floating-point arithmetic enters the model. -/
inductive RonValue where
  | unit : RonValue
  | boolV (b : Bool) : RonValue
  | num (tok : Str) : RonValue
  | strV (s : Str) : RonValue
  | seq (l : List RonValue) : RonValue
  | map (m : List (RonValue × RonValue)) : RonValue
  deriving Repr

/-- Escape `"` and `\` for embedding in a double-quoted RON string. -/
def escapeStr : Str → Str
  | [] => []
  | c :: cs =>
    if c == '"' || c == '\\' then '\\' :: c :: escapeStr cs else c :: escapeStr cs

mutual

/-- Model of `ron::to_string` on a `ron::Value` (compact form, no spaces). -/
def ronToStr : RonValue → Str
  | .unit => lit "()"
  | .boolV b => if b then lit "true" else lit "false"
  | .num tok => tok
  | .strV s => '"' :: escapeStr s ++ ['"']
  | .seq l => '[' :: ronSeqToStr l ++ [']']
  | .map m => lbrace :: ronMapToStr m ++ [rbrace]

/-- Comma-joined rendering of sequence elements. -/
def ronSeqToStr : List RonValue → Str
  | [] => []
  | [v] => ronToStr v
  | v :: rest => ronToStr v ++ ',' :: ronSeqToStr rest

/-- Comma-joined rendering of map entries as `key:value`. -/
def ronMapToStr : List (RonValue × RonValue) → Str
  | [] => []
  | [(k, v)] => ronToStr k ++ ':' :: ronToStr v
  | (k, v) :: rest => ronToStr k ++ ':' :: ronToStr v ++ ',' :: ronMapToStr rest

end

/-- Parse the body of a double-quoted string (the opening quote already
consumed), unescaping `\"` and `\\`.  Returns the content and the rest of
the input after the closing quote. -/
def parseStrBody : Str → Option (Str × Str)
  | [] => none
  | c :: cs =>
    if c == '"' then some ([], cs)
    else if c == '\\' then
      match cs with
      | [] => none
      | d :: ds => (parseStrBody ds).map (fun p => (d :: p.1, p.2))
    else (parseStrBody cs).map (fun p => (c :: p.1, p.2))

/-- Decide whether a parenthesized form starts like a named struct field
(`ident :`), which makes the generic parser read it as a map, as `ron`'s
`deserialize_any` does; otherwise it is read as a tuple (sequence). -/
def looksLikeField (t : Str) : Bool :=
  isIdentStart (t.headD ' ') &&
    ((trimStartS (t.drop (t.takeWhile isIdentChar).length)).headD ' ' == ':')

mutual

/-- Fueled model of `ron::Value` parsing (`deserialize_any`): strings, braced
maps, bracketed sequences, parenthesized structs (read as maps) and tuples
(read as sequences), `()` and bare identifiers (both read as `Unit`, the
identifier's spelling being erased), numbers and booleans. -/
def parseValueF : Nat → Str → Option (RonValue × Str)
  | 0, _ => none
  | fuel + 1, s =>
    match trimStartS s with
    | [] => none
    | c :: cs =>
      if c == '"' then (parseStrBody cs).map (fun p => (.strV p.1, p.2))
      else if c == lbrace then
        (parseMapEntriesF fuel cs).map (fun p => (.map p.1, p.2))
      else if c == '[' then
        (parseSeqItemsF fuel cs).map (fun p => (.seq p.1, p.2))
      else if c == '(' then
        match trimStartS cs with
        | ')' :: r2 => some (.unit, r2)
        | t2 =>
          if looksLikeField t2 then
            (parseStructFieldsF fuel cs).map (fun p => (.map p.1, p.2))
          else
            (parseTupleItemsF fuel cs).map (fun p => (.seq p.1, p.2))
      else if isNumStart c then
        some (.num ((c :: cs).takeWhile isNumChar), (c :: cs).dropWhile isNumChar)
      else if isIdentStart c then
        if (c :: cs).takeWhile isIdentChar = lit "true" then
          some (.boolV true, (c :: cs).dropWhile isIdentChar)
        else if (c :: cs).takeWhile isIdentChar = lit "false" then
          some (.boolV false, (c :: cs).dropWhile isIdentChar)
        else some (.unit, (c :: cs).dropWhile isIdentChar)
      else none

/-- Entries of a braced map, after the opening brace. -/
def parseMapEntriesF : Nat → Str → Option (List (RonValue × RonValue) × Str)
  | 0, _ => none
  | fuel + 1, s =>
    match trimStartS s with
    | [] => none
    | c :: cs =>
      if c == rbrace then some ([], cs)
      else
        match parseValueF fuel (c :: cs) with
        | none => none
        | some (k, r1) =>
          match trimStartS r1 with
          | ':' :: r2 =>
            match parseValueF fuel r2 with
            | none => none
            | some (v, r3) =>
              match trimStartS r3 with
              | ',' :: r4 =>
                (parseMapEntriesF fuel r4).map (fun p => ((k, v) :: p.1, p.2))
              | c2 :: r4 => if c2 == rbrace then some ([(k, v)], r4) else none
              | [] => none
          | _ => none

/-- Items of a bracketed sequence, after the opening bracket. -/
def parseSeqItemsF : Nat → Str → Option (List RonValue × Str)
  | 0, _ => none
  | fuel + 1, s =>
    match trimStartS s with
    | [] => none
    | c :: cs =>
      if c == ']' then some ([], cs)
      else
        match parseValueF fuel (c :: cs) with
        | none => none
        | some (v, r1) =>
          match trimStartS r1 with
          | ',' :: r2 => (parseSeqItemsF fuel r2).map (fun p => (v :: p.1, p.2))
          | ']' :: r2 => some ([v], r2)
          | _ => none

/-- Fields of a parenthesized struct, after the opening parenthesis; keys are
recorded as string values, as `ron` does when reading a struct into a
`Value::Map`. -/
def parseStructFieldsF : Nat → Str → Option (List (RonValue × RonValue) × Str)
  | 0, _ => none
  | fuel + 1, s =>
    match trimStartS s with
    | [] => none
    | t =>
      if (t.takeWhile isIdentChar).isEmpty then none
      else
        match trimStartS (t.drop (t.takeWhile isIdentChar).length) with
        | ':' :: r2 =>
          match parseValueF fuel r2 with
          | none => none
          | some (v, r3) =>
            match trimStartS r3 with
            | ',' :: r4 =>
              if (trimStartS r4).headD ' ' == ')' then
                some ([(.strV (t.takeWhile isIdentChar), v)], (trimStartS r4).tail)
              else
                (parseStructFieldsF fuel r4).map
                  (fun p => ((.strV (t.takeWhile isIdentChar), v) :: p.1, p.2))
            | ')' :: r4 => some ([(.strV (t.takeWhile isIdentChar), v)], r4)
            | _ => none
        | _ => none

/-- Items of a parenthesized tuple, after the opening parenthesis. -/
def parseTupleItemsF : Nat → Str → Option (List RonValue × Str)
  | 0, _ => none
  | fuel + 1, s =>
    match parseValueF fuel s with
    | none => none
    | some (v, r1) =>
      match trimStartS r1 with
      | ',' :: r2 =>
        if (trimStartS r2).headD ' ' == ')' then some ([v], (trimStartS r2).tail)
        else (parseTupleItemsF fuel r2).map (fun p => (v :: p.1, p.2))
      | ')' :: r2 => some ([v], r2)
      | _ => none

end

/-- Model of `ron::from_str::<ron::Value>`: parse one value and require only
trailing whitespace after it. -/
def ronFromStr (s : Str) : Option RonValue :=
  match parseValueF (2 * s.length + 2) s with
  | some (v, rest) => if (trimStartS rest).isEmpty then some v else none
  | none => none

/-- Require every key of a parsed map to be a string, as deserializing into
`HashMap<String, ron::Value>` does. -/
def stringKeysOf : List (RonValue × RonValue) → Option (List (Str × RonValue))
  | [] => some []
  | (.strV k, v) :: rest => (stringKeysOf rest).map (fun l => (k, v) :: l)
  | _ => none

/-- Model of `ron::from_str::<HashMap<String, ron::Value>>`: top-level braced
map with string keys. -/
def ronFromStrMap (s : Str) : Option (List (Str × RonValue)) :=
  if (trimStartS s).headD ' ' == lbrace then
    match ronFromStr s with
    | some (.map m) => stringKeysOf m
    | _ => none
  else none

/-- First-match association lookup (model of `HashMap::get` after a parse that
keeps the textual entry order). -/
def lookupAssoc (m : List (Str × RonValue)) (k : Str) : Option RonValue :=
  match m with
  | [] => none
  | (k0, v) :: rest => if k0 = k then some v else lookupAssoc rest k

example : ronFromStr (lit "\x7b\"Health\":(current:50.0,max:100.0)\x7d")
    = some (.map [(.strV (lit "Health"),
        .map [(.strV (lit "current"), .num (lit "50.0")),
              (.strV (lit "max"), .num (lit "100.0"))])]) := rfl

example : ronFromStr (lit "\x7b\"MarkerType\":MarkerType\x7d")
    = some (.map [(.strV (lit "MarkerType"), .unit)]) := rfl

example : ronFromStr (lit "[1.0, 2.0, 3.0]")
    = some (.seq [.num (lit "1.0"), .num (lit "2.0"), .num (lit "3.0")]) := rfl

example : ronFromStr (lit "(1.0,2.0") = none := rfl

example : ronFromStr (lit "\x7b\"P\":()\x7d")
    = some (.map [(.strV (lit "P"), .unit)]) := rfl

/-- A reflected component instance (`dyn PartialReflect` data): float leaves
kept as literal tokens, unit structs, structs with named fields, and tuple
structs. -/
inductive RValue where
  | float (tok : Str) : RValue
  | unitV (name : Str) : RValue
  | structV (fields : List (Str × RValue)) : RValue
  | tupleV (elems : List RValue) : RValue
  deriving Repr

mutual

/-- RON text of a reflected value as the registered structured serializer
emits it (compact `ron::to_string` form): structs as `(name:value,..)`,
tuple structs as `(v0,v1,..)`, unit structs as `()`. -/
def serializeRValue : RValue → Str
  | .float tok => tok
  | .unitV _ => lit "()"
  | .structV fields => '(' :: serializeFields fields ++ [')']
  | .tupleV elems => '(' :: serializeElems elems ++ [')']

/-- Comma-joined `name:value` rendering of struct fields. -/
def serializeFields : List (Str × RValue) → Str
  | [] => []
  | [(n, v)] => n ++ ':' :: serializeRValue v
  | (n, v) :: rest => n ++ ':' :: serializeRValue v ++ ',' :: serializeFields rest

/-- Comma-joined rendering of tuple elements. -/
def serializeElems : List RValue → Str
  | [] => []
  | [v] => serializeRValue v
  | v :: rest => serializeRValue v ++ ',' :: serializeElems rest

end

/-- Model of `ron::to_string(&ReflectSerializer::new(value, registry))`: a
one-entry braced map from the quoted full type path to the value's RON
text. -/
def reflectSerializeText (path : Str) (v : RValue) : Str :=
  lbrace :: '"' :: escapeStr path ++ '"' :: ':' :: serializeRValue v ++ [rbrace]

/-- The reflection schema of a registered component type, as the
`TypedReflectDeserializer` sees it: a unit struct with its identifier, a
float leaf, a struct with named fields, or a tuple struct. -/
inductive TypeShape where
  | unitS (name : Str) : TypeShape
  | floatS : TypeShape
  | structS (name : Str) (fields : List (Str × TypeShape)) : TypeShape
  | tupleS (name : Str) (elems : List TypeShape) : TypeShape
  deriving Repr

mutual

/-- Fuel needed by `parseShapeF` on this shape. -/
def shapeNeed : TypeShape → Nat
  | .floatS => 1
  | .unitS _ => 1
  | .structS _ fields => 1 + fieldsNeed fields
  | .tupleS _ elems => 1 + elemsNeed elems

/-- Fuel needed by `parseFieldsSF` on this field list. -/
def fieldsNeed : List (Str × TypeShape) → Nat
  | [] => 1
  | (_, sh) :: rest => 1 + max (shapeNeed sh) (fieldsNeed rest)

/-- Fuel needed by `parseElemsSF` on this element list. -/
def elemsNeed : List TypeShape → Nat
  | [] => 1
  | sh :: rest => 1 + max (shapeNeed sh) (elemsNeed rest)

end

/-- Consume an optional leading struct identifier equal to `name` (RON allows
`Name(..)` as well as `(..)` for a named struct). -/
def skipOptionalName (name t : Str) : Str :=
  if isIdentStart (t.headD ' ') && t.takeWhile isIdentChar = name then
    trimStartS (t.dropWhile isIdentChar)
  else t

mutual

/-- Fueled model of the schema-driven RON deserializer
(`TypedReflectDeserializer`; the serde-derive deserializer used by the
`ReflectDeserialize` strategy follows the same grammar for these shapes):
parse text against a `TypeShape`, producing the reflected value and the
unconsumed rest. -/
def parseShapeF : Nat → TypeShape → Str → Option (RValue × Str)
  | 0, _, _ => none
  | _ + 1, .floatS, s =>
    match trimStartS s with
    | [] => none
    | c :: cs =>
      if isNumStart c then
        some (.float ((c :: cs).takeWhile isNumChar), (c :: cs).dropWhile isNumChar)
      else none
  | _ + 1, .unitS name, s =>
    match trimStartS s with
    | [] => none
    | '(' :: r =>
      match trimStartS r with
      | ')' :: r2 => some (.unitV name, r2)
      | _ => none
    | c :: cs =>
      if isIdentStart c && (c :: cs).takeWhile isIdentChar = name then
        some (.unitV name, (c :: cs).dropWhile isIdentChar)
      else none
  | fuel + 1, .structS name fields, s =>
    match skipOptionalName name (trimStartS s) with
    | '(' :: r => (parseFieldsSF fuel fields r).map (fun p => (.structV p.1, p.2))
    | _ => none
  | fuel + 1, .tupleS name elems, s =>
    match skipOptionalName name (trimStartS s) with
    | '(' :: r => (parseElemsSF fuel elems r).map (fun p => (.tupleV p.1, p.2))
    | _ => none

/-- Parse the declared fields of a struct in order, after the opening
parenthesis. -/
def parseFieldsSF : Nat → List (Str × TypeShape) → Str → Option (List (Str × RValue) × Str)
  | 0, _, _ => none
  | _ + 1, [], s =>
    match trimStartS s with
    | ')' :: r => some ([], r)
    | _ => none
  | fuel + 1, (fname, fshape) :: rest, s =>
    if isIdentStart ((trimStartS s).headD ' ')
        && (trimStartS s).takeWhile isIdentChar = fname then
      match trimStartS ((trimStartS s).dropWhile isIdentChar) with
      | ':' :: r2 =>
        match parseShapeF fuel fshape r2 with
        | none => none
        | some (v, r3) =>
          match trimStartS r3 with
          | ',' :: r4 => (parseFieldsSF fuel rest r4).map (fun p => ((fname, v) :: p.1, p.2))
          | ')' :: r4 => if rest.isEmpty then some ([(fname, v)], r4) else none
          | _ => none
      | _ => none
    else none

/-- Parse the declared elements of a tuple struct in order, after the opening
parenthesis. -/
def parseElemsSF : Nat → List TypeShape → Str → Option (List RValue × Str)
  | 0, _, _ => none
  | _ + 1, [], s =>
    match trimStartS s with
    | ')' :: r => some ([], r)
    | _ => none
  | fuel + 1, eshape :: rest, s =>
    match parseShapeF fuel eshape s with
    | none => none
    | some (v, r1) =>
      match trimStartS r1 with
      | ',' :: r2 => (parseElemsSF fuel rest r2).map (fun p => (v :: p.1, p.2))
      | ')' :: r2 => if rest.isEmpty then some ([v], r2) else none
      | _ => none

end

/-- Model of one schema-driven deserialization attempt on the extracted text;
trailing input after the value is not inspected, as with a serde
deserializer that is not asked for end-of-input. -/
def typedReflectDeserialize (shape : TypeShape) (s : Str) : Option RValue :=
  (parseShapeF (shapeNeed shape + s.length) shape s).map (fun p => p.1)

/-- One entry of the process-wide type registry: the type's stable full path,
its reflection schema, the two exposure tags, and which optional capability
data (`ReflectComponent`, `ReflectDeserialize`) the registration carries. -/
structure TypeRegistration where
  typePath : Str
  shape : TypeShape
  bridgeTag : Bool
  exposedTag : Bool
  hasReflectComponent : Bool
  hasReflectDeserialize : Bool

/-- The type registry, looked up by full type path. -/
abbrev TypeRegistry := List TypeRegistration

/-- Model of `TypeRegistry::get_with_type_path` (and of the `get(type_id)`
lookup, components being keyed here by their type path). -/
def getWithTypePath : TypeRegistry → Str → Option TypeRegistration
  | [], _ => none
  | r :: rest, p => if r.typePath = p then some r else getWithTypePath rest p

/-- Model of `is_bridge_component_check`: the registration carries the
`BridgeTag` data. -/
def is_bridge_component_check (r : TypeRegistration) : Bool := r.bridgeTag

/-- Model of `is_exposed_bevy_component`: the registration carries the
`ExposedToEditor` data. -/
def is_exposed_bevy_component (r : TypeRegistration) : Bool := r.exposedTag

/-- Model of `ComponentEditor::should_skip_component`. -/
def should_skip_component (r : TypeRegistration) : Bool :=
  !is_bridge_component_check r && !is_exposed_bevy_component r

/-- An entity's component set: full type path paired with the live reflected
value. -/
abbrev EntityComps := List (Str × RValue)

/-- Model of `ComponentEditor::serialize_entity_components`: walk the
entity's components; skip unregistered types silently, skip filtered types,
and for the rest (when `ReflectComponent` data exists so the live value can
be reflected) emit `type_path → ron::to_string(ReflectSerializer)` text. -/
def serialize_entity_components (reg : TypeRegistry) : EntityComps → List (Str × Str)
  | [] => []
  | (path, v) :: rest =>
    match getWithTypePath reg path with
    | none => serialize_entity_components reg rest
    | some r =>
      if should_skip_component r then serialize_entity_components reg rest
      else if r.hasReflectComponent then
        (r.typePath, reflectSerializeText r.typePath v) :: serialize_entity_components reg rest
      else serialize_entity_components reg rest

/-- The `Float(` wrapper token stripped by `clean_ron_value`. -/
def floatWrapPat : Str := lit "Float("

/-- Fueled model of the `while result.contains("Float(")` loop: each
iteration removes every `Float(` occurrence and then every `)` character. -/
def stripFloatLoopF : Nat → Str → Str
  | 0, s => s
  | fuel + 1, s =>
    if containsSub s floatWrapPat then
      stripFloatLoopF fuel (replaceAll [')'] [] (replaceAll floatWrapPat [] s))
    else s

/-- The wrapper-stripping loop of `clean_ron_value`; every iteration shortens
the string by at least the length of `Float(`, so `length + 1` rounds of
fuel always reach the loop's exit condition. -/
def stripFloatWrappers (s : Str) : Str := stripFloatLoopF (s.length + 1) s

/-- The `[a,b,c] → (a,b,c)` rewrite of `clean_ron_value`. -/
def bracketToParen (s : Str) : Str :=
  if s.headD ' ' == '[' && s.getLast? == some ']' then
    '(' :: (s.drop 1).dropLast ++ [')']
  else s

/-- Model of `Vec::join(",")` on the field strings. -/
def intercalateComma : List Str → Str
  | [] => []
  | [x] => x
  | x :: rest => x ++ ',' :: intercalateComma rest

mutual

/-- Fuel needed by the mutual `clean_ron_value` / `convert_map_to_ron_struct`
recursion when the cleaned text parses to this value: one call per nested
map level (the source recursion descends one parsed-map level per call). -/
def cleanNeed : RonValue → Nat
  | .map m => 1 + cleanNeedE m
  | _ => 1

/-- Fuel needed by `convertFieldsF` on this entry list. -/
def cleanNeedE : List (RonValue × RonValue) → Nat
  | [] => 0
  | (_, v) :: rest => 1 + max (cleanNeed v) (cleanNeedE rest)

end

mutual

/-- Fueled model of `ComponentEditor::clean_ron_value`: strip `Float(`
wrappers, rewrite a bracketed whole into a parenthesized one, and if the
result re-parses as a map, re-render it through
`convert_map_to_ron_struct`. -/
def cleanRonValueF : Nat → Str → Str
  | 0, s => s
  | fuel + 1, s =>
    let r2 := bracketToParen (stripFloatWrappers s)
    match ronFromStr r2 with
    | some (.map m) => '(' :: intercalateComma (convertFieldsF fuel m) ++ [')']
    | _ => r2

/-- Fueled model of the field loop of `convert_map_to_ron_struct`: string
keys become `name:cleaned-value` entries, other keys are skipped. -/
def convertFieldsF : Nat → List (RonValue × RonValue) → List Str
  | 0, _ => []
  | _ + 1, [] => []
  | fuel + 1, (k, v) :: rest =>
    match k with
    | .strV fname =>
      (fname ++ ':' :: cleanRonValueF fuel (ronToStr v)) :: convertFieldsF fuel rest
    | _ => convertFieldsF fuel rest

end

/-- Fuel that always suffices for `cleanRonValueF` on `s`: the recursion only
continues through the parsed-map branch, whose depth `cleanNeedE` bounds. -/
def cleanFuelStr (s : Str) : Nat :=
  match ronFromStr (bracketToParen (stripFloatWrappers s)) with
  | some (.map m) => 2 + cleanNeedE m
  | _ => 1

/-- Model of `ComponentEditor::clean_ron_value`. -/
def clean_ron_value (s : Str) : Str := cleanRonValueF (cleanFuelStr s) s

/-- Model of `ComponentEditor::convert_map_to_ron_struct`. -/
def convert_map_to_ron_struct (m : List (RonValue × RonValue)) : Str :=
  '(' :: intercalateComma (convertFieldsF (cleanNeedE m + 1) m) ++ [')']

/-- Model of `ComponentEditor::convert_seq_to_tuple`. -/
def convert_seq_to_tuple (l : List RonValue) : Str :=
  '(' :: intercalateComma (l.map (fun v => clean_ron_value (ronToStr v))) ++ [')']

/-- Model of `ComponentEditor::try_extract_ron_component`: find the
`"<name>":` key textually; if a double quote follows, return everything
between it and the last double quote of the remaining blob, with `\"`
unescaped. -/
def try_extract_ron_component (name data : Str) : Option Str :=
  let pat := '"' :: name ++ lit "\":"
  match findSubstrIdx pat data with
  | none => none
  | some start =>
    let trimmed := trimStartS (data.drop (start + pat.length))
    if trimmed.headD ' ' == '"' then
      match rfindChar '"' (trimmed.drop 1) with
      | some qe => some (replaceAll (lit "\\\"") ['"'] ((trimmed.drop 1).take qe))
      | none => none
    else none

/-- Model of the `ron::Value::Unit` branch of `extract_component_data`:
recover the original identifier after the `"<name>":` key, up to the next
closing brace; an empty result becomes the `()` unit token. -/
def extractUnitIdentifier (name data : Str) : Option Str :=
  let pat := '"' :: name ++ lit "\":"
  match findSubstrIdx pat data with
  | none => none
  | some start =>
    let identifier := trimS (upToChar rbrace (trimStartS (data.drop (start + pat.length))))
    if identifier.isEmpty then some (lit "()") else some identifier

/-- Model of `ComponentEditor::extract_component_data`: direct text
extraction first, then the structured-value fallback branching on the parsed
value's shape. -/
def extract_component_data (name data : Str) : Option Str :=
  match try_extract_ron_component name data with
  | some extracted => some extracted
  | none =>
    match ronFromStrMap data with
    | none => none
    | some parsed =>
      match lookupAssoc parsed name with
      | none => none
      | some (.strV s) => some s
      | some .unit => extractUnitIdentifier name data
      | some (.map m) => some (convert_map_to_ron_struct m)
      | some (.seq l) => some (convert_seq_to_tuple l)
      | some other => some (ronToStr other)

/-- Model of `ComponentEditor::insert_reflected_component`: requires the
`ReflectComponent` capability; `apply` over an existing component of the
type, else `insert` fresh. -/
def insert_reflected_component (e : EntityComps) (name : Str) (v : RValue)
    (r : TypeRegistration) : Except Str EntityComps :=
  if r.hasReflectComponent then
    if e.any (fun c => c.1 == r.typePath) then
      .ok (e.map (fun c => if c.1 == r.typePath then (c.1, v) else c))
    else .ok (e ++ [(r.typePath, v)])
  else .error (lit "No ReflectComponent found for: " ++ name)

/-- Model of `ComponentEditor::try_reflect_deserialize` (strategy 1, only
available when the registration has `ReflectDeserialize` data). -/
def try_reflect_deserialize (e : EntityComps) (name cleanRon : Str)
    (r : TypeRegistration) : Except Str EntityComps :=
  match typedReflectDeserialize r.shape cleanRon with
  | some v => insert_reflected_component e name v r
  | none => .error (lit "Failed to deserialize component " ++ name)

/-- Model of `ComponentEditor::try_typed_reflection_deserialize` (strategy 2,
re-parsing the same extracted text from a fresh deserializer). -/
def try_typed_reflection_deserialize (e : EntityComps) (name cleanRon : Str)
    (r : TypeRegistration) : Except Str EntityComps :=
  match typedReflectDeserialize r.shape cleanRon with
  | some v => insert_reflected_component e name v r
  | none =>
    .error (lit "Failed to deserialize component " ++ name ++ lit " via typed reflection")

/-- Model of `ComponentEditor::deserialize_and_insert_component`: strategy 1
first when `ReflectDeserialize` data exists, strategy 2 on its absence or
failure. -/
def deserialize_and_insert_component (e : EntityComps) (name cleanRon : Str)
    (r : TypeRegistration) : Except Str EntityComps :=
  if r.hasReflectDeserialize then
    match try_reflect_deserialize e name cleanRon r with
    | .ok e2 => .ok e2
    | .error _ => try_typed_reflection_deserialize e name cleanRon r
  else try_typed_reflection_deserialize e name cleanRon r

/-- Model of `ComponentEditor::process_single_component`: resolve the
registration, extract the component's own text, deserialize and install. -/
def process_single_component (reg : TypeRegistry) (e : EntityComps)
    (name data : Str) : Except Str EntityComps :=
  match getWithTypePath reg name with
  | none => .error (lit "No registration found for component: " ++ name)
  | some r =>
    match extract_component_data name data with
    | none => .error (lit "Failed to extract component data for: " ++ name)
    | some cleanRon => deserialize_and_insert_component e name cleanRon r

/-- Worker for `load_components_from_scene_data`, threading the entity state
and the success / failure counters through the entries. -/
def loadComponentsAux (reg : TypeRegistry) :
    EntityComps → Nat → Nat → List (Str × Str) → EntityComps × Nat × Nat
  | e, s, f, [] => (e, s, f)
  | e, s, f, (name, data) :: rest =>
    match process_single_component reg e name data with
    | .ok e2 => loadComponentsAux reg e2 (s + 1) f rest
    | .error _ => loadComponentsAux reg e s (f + 1) rest

/-- Model of `ComponentEditor::load_components_from_scene_data`: restore each
entry in turn, never stopping early; the returned counters are the
success / failure totals the source logs in its summary line. -/
def load_components_from_scene_data (reg : TypeRegistry) (e : EntityComps)
    (m : List (Str × Str)) : EntityComps × Nat × Nat :=
  loadComponentsAux reg e 0 0 m

/-- Result of a Rust computation that may panic (`expect`): either the
panic's message or the value. -/
inductive PanicOr (α : Type) where
  | panics (msg : Str) : PanicOr α
  | ok (a : α) : PanicOr α

/-- Model of the `ReflectedComponent` struct; `dataClonable` records whether
`reflect_clone` on the underlying data succeeds. -/
structure ReflectedComponent where
  type_name : Str
  reflected_data : RValue
  dataClonable : Bool
  type_registration : TypeRegistration

/-- Model of `impl Clone for ReflectedComponent`: the source calls
`reflect_clone().expect("ReflectedComponent to be clonable")`, so a failed
reflective clone is a panic, not a recoverable error. -/
def cloneReflectedComponent (c : ReflectedComponent) : PanicOr ReflectedComponent :=
  if c.dataClonable then .ok c else .panics (lit "ReflectedComponent to be clonable")

/-- One live component as the gather path sees it: its type path, its
reflected value, and whether `reflect_clone` on it succeeds. -/
structure GComp where
  typePath : Str
  value : RValue
  clonable : Bool

/-- Model of `ComponentEditor::get_reflected_components`: skip unregistered
types, apply the exposure filter when asked, require `ReflectComponent`
data, and on a failed `reflect_clone` log and skip that one component. -/
def get_reflected_components (reg : TypeRegistry) (filter : Bool) :
    List GComp → List ReflectedComponent
  | [] => []
  | c :: rest =>
    match getWithTypePath reg c.typePath with
    | none => get_reflected_components reg filter rest
    | some r =>
      if filter && should_skip_component r then get_reflected_components reg filter rest
      else if r.hasReflectComponent then
        if c.clonable then
          { type_name := r.typePath, reflected_data := c.value,
            dataClonable := c.clonable, type_registration := r }
            :: get_reflected_components reg filter rest
        else get_reflected_components reg filter rest
      else get_reflected_components reg filter rest

/-- The `Health ( current : f32, max : f32 )` registration of the spec's
example scenario, bridge-tagged, registered at the path `Health`. -/
def healthReg : TypeRegistration :=
  { typePath := lit "Health"
  , shape := .structS (lit "Health") [(lit "current", .floatS), (lit "max", .floatS)]
  , bridgeTag := true
  , exposedTag := false
  , hasReflectComponent := true
  , hasReflectDeserialize := false }

/-- The live `Health` value of the example scenario. -/
def healthVal : RValue :=
  .structV [(lit "current", .float (lit "50.0")), (lit "max", .float (lit "100.0"))]

-- Concrete validation of the executable model on the Health scenario.
example : serialize_entity_components [healthReg] [(lit "Health", healthVal)]
    = [(lit "Health", lit "\x7b\"Health\":(current:50.0,max:100.0)\x7d")] := rfl

example : extract_component_data (lit "Health")
      (lit "\x7b\"Health\":(current:50.0,max:100.0)\x7d")
    = some (lit "(current:50.0,max:100.0)") := rfl

example : load_components_from_scene_data [healthReg] []
      (serialize_entity_components [healthReg] [(lit "Health", healthVal)])
    = ([(lit "Health", healthVal)], 1, 0) := rfl

example : extract_component_data (lit "T") (lit "\x7b\"T\":[1.0,2.0,3.0]\x7d")
    = some (lit "(1.0,2.0,3.0)") := rfl

example : clean_ron_value (lit "Float(1.0)") = lit "1.0" := rfl

example : clean_ron_value (lit "(Float(1.0),Float(2.0))") = lit "(1.0,2.0" := rfl

example : try_extract_ron_component (lit "A") (lit "\x7b\"A\":\"x\",\"B\":\"y\"\x7d")
    = some (lit "x\",\"B\":\"y") := rfl

theorem isPrefixOf_append_self (p t : Str) : p.isPrefixOf (p ++ t) = true := by
  induction p with
  | nil => simp [List.isPrefixOf]
  | cons c cs ih => simp [List.isPrefixOf, ih]

theorem replaceAllF_length_le (pat : Str) :
    ∀ (fuel : Nat) (s : Str), (replaceAllF pat [] fuel s).length ≤ s.length := by
  intro fuel
  induction fuel with
  | zero => intro s; simp [replaceAllF]
  | succ n ih =>
    intro s
    cases s with
    | nil => simp [replaceAllF]
    | cons c cs =>
      simp only [replaceAllF]
      by_cases h : (!pat.isEmpty && pat.isPrefixOf (c :: cs)) = true
      · rw [if_pos h]
        simp only [List.nil_append]
        have h1 := ih ((c :: cs).drop pat.length)
        have h2 : ((c :: cs).drop pat.length).length ≤ (c :: cs).length := by
          rw [List.length_drop]; omega
        omega
      · rw [if_neg h]
        simp only [List.length_cons]
        exact Nat.succ_le_succ (ih cs)

theorem replaceAllF_filterChar (c : Char) :
    ∀ (fuel : Nat) (s : Str), s.length < fuel →
      replaceAllF [c] [] fuel s = s.filter (fun x => x != c) := by
  intro fuel
  induction fuel with
  | zero => intro s h; omega
  | succ n ih =>
    intro s h
    cases s with
    | nil => simp [replaceAllF]
    | cons x xs =>
      have hlt : xs.length < n := by
        simp only [List.length_cons] at h; omega
      by_cases hx : (c == x) = true
      · have hxe : c = x := eq_of_beq hx
        subst hxe
        have hcond : (!([c] : Str).isEmpty && List.isPrefixOf [c] (c :: xs)) = true := by
          simp [List.isPrefixOf]
        simp only [replaceAllF, hcond, if_pos]
        rw [List.filter_cons]
        have hpx : ((c != c) = true) = False := by simp
        simp only [List.length_cons, List.drop_succ_cons, List.drop_zero,
          List.nil_append, bne_self_eq_false, Bool.false_eq_true, if_false]
        exact ih xs hlt
      · have hcond : (!([c] : Str).isEmpty && List.isPrefixOf [c] (x :: xs)) = false := by
          simp [List.isPrefixOf, hx]
        simp only [replaceAllF, hcond, Bool.false_eq_true, if_false]
        rw [List.filter_cons]
        have hbne : (x != c) = true := by
          simp only [bne_iff_ne, ne_eq]
          intro hh
          exact hx (by simp [hh])
        simp only [hbne, if_pos]
        rw [ih xs hlt]

theorem containsSub_length {s pat : Str} (h : containsSub s pat = true) :
    pat.length ≤ s.length := by
  induction s with
  | nil =>
    simp only [containsSub, findSubstrIdx] at h
    by_cases hp : pat.isEmpty = true
    · have : pat = [] := by simpa [List.isEmpty_iff] using hp
      simp [this]
    · rw [if_neg hp] at h
      simp at h
  | cons c cs ih =>
    simp only [containsSub, findSubstrIdx] at h ⊢
    by_cases hp : pat.isPrefixOf (c :: cs) = true
    · exact ((List.isPrefixOf_iff_prefix).1 hp).length_le
    · rw [if_neg hp] at h
      have h2 : (findSubstrIdx pat cs).isSome = true := by
        cases hfi : findSubstrIdx pat cs with
        | none => rw [hfi] at h; simp at h
        | some k => rfl
      have := ih (by simpa [containsSub] using h2)
      simp only [List.length_cons]
      omega

theorem containsSub_cons_of_not_prefixed {pat : Str} {c : Char} {cs : Str}
    (h : pat.isPrefixOf (c :: cs) = false) :
    containsSub (c :: cs) pat = containsSub cs pat := by
  simp [containsSub, findSubstrIdx, h]

theorem replaceAllF_drop_length (pat : Str) (hne : pat ≠ []) :
    ∀ (fuel : Nat) (s : Str), s.length < fuel → containsSub s pat = true →
      (replaceAllF pat [] fuel s).length + pat.length ≤ s.length := by
  intro fuel
  induction fuel with
  | zero => intro s h; omega
  | succ n ih =>
    intro s h hc
    cases s with
    | nil =>
      have := containsSub_length hc
      simp only [List.length_nil, Nat.le_zero, List.length_eq_zero] at this
      exact absurd this hne
    | cons x xs =>
      simp only [replaceAllF]
      by_cases hp : pat.isPrefixOf (x :: xs) = true
      · have hpe : (!pat.isEmpty && pat.isPrefixOf (x :: xs)) = true := by
          simp [hp, List.isEmpty_iff, hne]
        rw [if_pos hpe]
        have hlenpat : pat.length ≤ (x :: xs).length :=
          ((List.isPrefixOf_iff_prefix).1 hp).length_le
        have hlen := replaceAllF_length_le pat n ((x :: xs).drop pat.length)
        simp only [List.length_drop] at hlen
        simp only [List.nil_append, List.length_cons] at *
        omega
      · have hpf : pat.isPrefixOf (x :: xs) = false := (Bool.eq_false_iff).2 hp
        have hpe : (!pat.isEmpty && pat.isPrefixOf (x :: xs)) = false := by
          simp [hpf]
        rw [hpe, if_neg (by simp)]
        have hc2 : containsSub xs pat = true := by
          rwa [containsSub_cons_of_not_prefixed hpf] at hc
        have := ih xs (by simp only [List.length_cons] at h; omega) hc2
        simp only [List.length_cons]
        omega

theorem stripFloatLoopF_no_pat :
    ∀ (fuel : Nat) (s : Str), s.length < fuel →
      containsSub (stripFloatLoopF fuel s) floatWrapPat = false := by
  intro fuel
  induction fuel with
  | zero => intro s h; omega
  | succ n ih =>
    intro s h
    simp only [stripFloatLoopF]
    by_cases hc : containsSub s floatWrapPat = true
    · rw [if_pos hc]
      apply ih
      have h1 := replaceAllF_drop_length floatWrapPat (by decide)
        (s.length + 1) s (by omega) hc
      have h2 := replaceAllF_length_le [')']
        ((replaceAll floatWrapPat [] s).length + 1) (replaceAll floatWrapPat [] s)
      simp only [replaceAll] at h1 h2 ⊢
      have hp : (floatWrapPat).length = 6 := by decide
      omega
    · rw [if_neg hc]
      exact (Bool.eq_false_iff).2 hc

theorem stripFloatLoopF_no_close :
    ∀ (fuel : Nat) (s : Str), ')' ∉ s → ')' ∉ stripFloatLoopF fuel s := by
  intro fuel
  induction fuel with
  | zero => intro s h; simpa [stripFloatLoopF] using h
  | succ n ih =>
    intro s h
    simp only [stripFloatLoopF]
    by_cases hc : containsSub s floatWrapPat = true
    · rw [if_pos hc]
      apply ih
      rw [replaceAll, replaceAllF_filterChar ')' _ _ (by omega)]
      intro hmem
      have := List.mem_filter.1 hmem
      simp at this
    · rw [if_neg hc]
      exact h

/-- C10: the stripping loop of `clean_ron_value` removes, for any input
containing `Float(`, every occurrence of `Float(` and every `)` character of
the whole string, not only the wrappers' closing parentheses; in particular
`clean_ron_value "Float(1.0)" = "1.0"` and
`clean_ron_value "(Float(1.0),Float(2.0))" = "(1.0,2.0"`. -/
theorem C10_float_wrapper_stripping :
    (∀ s : Str, containsSub s floatWrapPat = true →
      containsSub (stripFloatWrappers s) floatWrapPat = false ∧
        ')' ∉ stripFloatWrappers s) ∧
    clean_ron_value (lit "Float(1.0)") = lit "1.0" ∧
    clean_ron_value (lit "(Float(1.0),Float(2.0))") = lit "(1.0,2.0" := by
  refine ⟨?_, rfl, rfl⟩
  intro s hc
  refine ⟨stripFloatLoopF_no_pat (s.length + 1) s (by omega), ?_⟩
  show ')' ∉ stripFloatWrappers s
  unfold stripFloatWrappers
  have hstep : stripFloatLoopF (s.length + 1) s
      = stripFloatLoopF s.length (replaceAll [')'] [] (replaceAll floatWrapPat [] s)) := by
    simp only [stripFloatLoopF, hc, if_pos]
  rw [hstep]
  apply stripFloatLoopF_no_close
  rw [replaceAll, replaceAllF_filterChar ')' _ _ (by omega)]
  intro hmem
  have := List.mem_filter.1 hmem
  simp at this

/-- Witness for C10 at the concrete input `Float(1.0)`. -/
theorem C10_float_wrapper_stripping_witness :
    containsSub (lit "Float(1.0)") floatWrapPat = true ∧
    containsSub (stripFloatWrappers (lit "Float(1.0)")) floatWrapPat = false ∧
    ')' ∉ stripFloatWrappers (lit "Float(1.0)") :=
  ⟨by decide, (C10_float_wrapper_stripping.1 (lit "Float(1.0)") (by decide)).1,
    (C10_float_wrapper_stripping.1 (lit "Float(1.0)") (by decide)).2⟩

theorem getWithTypePath_typePath :
    ∀ (reg : TypeRegistry) (p : Str) (r : TypeRegistration),
      getWithTypePath reg p = some r → r.typePath = p := by
  intro reg
  induction reg with
  | nil => intro p r h; simp [getWithTypePath] at h
  | cons r0 rest ih =>
    intro p r h
    simp only [getWithTypePath] at h
    by_cases he : r0.typePath = p
    · rw [if_pos he] at h
      cases h
      exact he
    · rw [if_neg he] at h
      exact ih p r h

theorem serialize_mem :
    ∀ (reg : TypeRegistry) (e : EntityComps) (p : Str × Str),
      p ∈ serialize_entity_components reg e →
        ∃ r, getWithTypePath reg p.1 = some r ∧
          should_skip_component r = false ∧ r.hasReflectComponent = true := by
  intro reg e
  induction e with
  | nil => intro p h; simp [serialize_entity_components] at h
  | cons c rest ih =>
    intro p h
    obtain ⟨path, v⟩ := c
    simp only [serialize_entity_components] at h
    cases hreg : getWithTypePath reg path with
    | none =>
      simp only [hreg] at h
      exact ih p h
    | some r =>
      simp only [hreg] at h
      by_cases hskip : should_skip_component r = true
      · rw [if_pos hskip] at h
        exact ih p h
      · have hskipf : should_skip_component r = false := (Bool.eq_false_iff).2 hskip
        rw [if_neg hskip] at h
        by_cases hrc : r.hasReflectComponent = true
        · rw [if_pos hrc] at h
          rcases List.mem_cons.1 h with heq | hmem
          · refine ⟨r, ?_, hskipf, hrc⟩
            have hrp : r.typePath = path := getWithTypePath_typePath reg path r hreg
            rw [heq]
            simpa [hrp] using hreg
          · exact ih p hmem
        · rw [if_neg hrc] at h
          exact ih p h

/-- C3: `should_skip_component` is exactly the negation of the eligibility
predicate (bridge tag or exposed tag), and every entry the gather emits comes
from a registration that passes the filter. -/
theorem C3_filter_correctness :
    (∀ r : TypeRegistration, should_skip_component r
        = !(is_bridge_component_check r || is_exposed_bevy_component r)) ∧
    (∀ (reg : TypeRegistry) (e : EntityComps) (p : Str × Str),
      p ∈ serialize_entity_components reg e →
        ∃ r, getWithTypePath reg p.1 = some r ∧
          (is_bridge_component_check r || is_exposed_bevy_component r) = true) := by
  constructor
  · intro r
    simp [should_skip_component, Bool.not_or]
  · intro reg e p h
    obtain ⟨r, hlook, hskip, _⟩ := serialize_mem reg e p h
    refine ⟨r, hlook, ?_⟩
    cases hb : is_bridge_component_check r <;>
      cases hx : is_exposed_bevy_component r <;>
        simp_all [should_skip_component]

/-- Witness for C3 at the `Health` example registration. -/
theorem C3_filter_correctness_witness :
    should_skip_component healthReg
      = !(is_bridge_component_check healthReg || is_exposed_bevy_component healthReg) ∧
    (∃ r, getWithTypePath [healthReg] (lit "Health") = some r ∧
      (is_bridge_component_check r || is_exposed_bevy_component r) = true) :=
  ⟨C3_filter_correctness.1 healthReg,
    C3_filter_correctness.2 [healthReg] [(lit "Health", healthVal)]
      (lit "Health", lit "\x7b\"Health\":(current:50.0,max:100.0)\x7d") (by decide)⟩

theorem loadComponentsAux_counts :
    ∀ (m : List (Str × Str)) (reg : TypeRegistry) (e : EntityComps) (s f : Nat),
      (loadComponentsAux reg e s f m).2.1 + (loadComponentsAux reg e s f m).2.2
        = s + f + m.length := by
  intro m
  induction m with
  | nil => intro reg e s f; simp [loadComponentsAux]
  | cons entry rest ih =>
    intro reg e s f
    obtain ⟨name, data⟩ := entry
    simp only [loadComponentsAux]
    cases hp : process_single_component reg e name data with
    | ok e2 =>
      simp only [hp]
      rw [ih]
      simp only [List.length_cons]
      omega
    | error msg =>
      simp only [hp]
      rw [ih]
      simp only [List.length_cons]
      omega

/-- A bridge-tagged one-float-field struct registration at the given path,
used by the batch-restore scenario. -/
def oneFieldReg (p : String) : TypeRegistration :=
  { typePath := lit p
  , shape := .structS (lit p) [(lit "x", .floatS)]
  , bridgeTag := true
  , exposedTag := false
  , hasReflectComponent := true
  , hasReflectDeserialize := false }

/-- Registry of the batch-restore scenario: four registered types. -/
def demoRegistry : TypeRegistry :=
  [oneFieldReg "A", oneFieldReg "B", oneFieldReg "C", oneFieldReg "D"]

/-- Five serialized entries, the middle one naming a type (`Zed`) absent from
the registry. -/
def demoEntries : List (Str × Str) :=
  [ (lit "A", lit "\x7b\"A\":(x:1.0)\x7d")
  , (lit "B", lit "\x7b\"B\":(x:2.0)\x7d")
  , (lit "Zed", lit "\x7b\"Zed\":(x:9.0)\x7d")
  , (lit "C", lit "\x7b\"C\":(x:3.0)\x7d")
  , (lit "D", lit "\x7b\"D\":(x:4.0)\x7d") ]

/-- C2: batch restore visits every map entry (successes plus failures equal
the entry count, so no early stop), and on the five-entry scenario with one
unregistered type name it installs the other four components and reports
exactly one failure. -/
theorem C2_failure_isolation :
    (∀ (reg : TypeRegistry) (e : EntityComps) (m : List (Str × Str)),
      (load_components_from_scene_data reg e m).2.1
        + (load_components_from_scene_data reg e m).2.2 = m.length) ∧
    getWithTypePath demoRegistry (lit "Zed") = none ∧
    load_components_from_scene_data demoRegistry [] demoEntries
      = ([ (lit "A", .structV [(lit "x", .float (lit "1.0"))])
         , (lit "B", .structV [(lit "x", .float (lit "2.0"))])
         , (lit "C", .structV [(lit "x", .float (lit "3.0"))])
         , (lit "D", .structV [(lit "x", .float (lit "4.0"))]) ], 4, 1) := by
  refine ⟨?_, rfl, rfl⟩
  intro reg e m
  simpa using loadComponentsAux_counts m reg e 0 0

theorem gather_all_clonable :
    ∀ (reg : TypeRegistry) (flag : Bool) (comps : List GComp),
      (get_reflected_components reg flag comps).all (fun rc => rc.dataClonable)
        = true := by
  intro reg flag comps
  induction comps with
  | nil => rfl
  | cons c rest ih =>
    cases hreg : getWithTypePath reg c.typePath with
    | none => simpa [get_reflected_components, hreg] using ih
    | some r =>
      by_cases h1 : (flag && should_skip_component r) = true
      · simpa [get_reflected_components, hreg, h1] using ih
      · by_cases h2 : r.hasReflectComponent = true
        · by_cases h3 : c.clonable = true
          · simp [get_reflected_components, hreg, h1, h2, h3, List.all_cons, ih]
          · simp only [get_reflected_components, hreg,
              (Bool.eq_false_iff).2 h1, Bool.false_eq_true, if_false, h2, if_true,
              (Bool.eq_false_iff).2 h3]
            exact ih
        · simp only [get_reflected_components, hreg,
            (Bool.eq_false_iff).2 h1, Bool.false_eq_true, if_false,
            (Bool.eq_false_iff).2 h2]
          exact ih

/-- A `ReflectedComponent` whose underlying data refuses `reflect_clone`. -/
def nonClonableRC : ReflectedComponent :=
  { type_name := lit "Health"
  , reflected_data := healthVal
  , dataClonable := false
  , type_registration := healthReg }

/-- Counterexample to C5: the source's `impl Clone for ReflectedComponent`
calls `reflect_clone().expect(..)`, so cloning a component whose data is not
clonable panics rather than returning a recoverable error. -/
theorem C5_counterexample :
    cloneReflectedComponent nonClonableRC
      = .panics (lit "ReflectedComponent to be clonable") := rfl

/-- C5 amended: a failed reflective clone on the gather path
(`get_reflected_components`) is recoverable and only skips that one component
— every gathered component cloned successfully, and a non-clonable component
is dropped, not propagated — but `ReflectedComponent`'s own `Clone`
implementation panics on a failed clone (see the counterexample). -/
theorem C5_clone_failure_amended :
    (∀ (reg : TypeRegistry) (flag : Bool) (comps : List GComp),
      (get_reflected_components reg flag comps).all (fun rc => rc.dataClonable)
        = true) ∧
    get_reflected_components [healthReg] false
      [ { typePath := lit "Health", value := healthVal, clonable := true }
      , { typePath := lit "Health", value := healthVal, clonable := false } ]
      = [{ type_name := lit "Health", reflected_data := healthVal,
           dataClonable := true, type_registration := healthReg }] :=
  ⟨gather_all_clonable, rfl⟩

/-- Counterexample to C4: the stored text is the full `ReflectSerializer`
output (a map keyed by the type path), not the bare struct body. -/
theorem C4_counterexample :
    serialize_entity_components [healthReg] [(lit "Health", healthVal)]
      ≠ [(lit "Health", lit "(current:50.0,max:100.0)")] := by decide

/-- C4 amended: gathering the `Health ( current : 50.0, max : 100.0 )` entity
yields the one-entry map from `Health` to the wrapped text
`\x7b"Health":(current:50.0,max:100.0)\x7d`; extraction recovers the bare
struct body `(current:50.0,max:100.0)` from that blob on restore. -/
theorem C4_gather_health :
    serialize_entity_components [healthReg] [(lit "Health", healthVal)]
      = [(lit "Health", lit "\x7b\"Health\":(current:50.0,max:100.0)\x7d")] ∧
    extract_component_data (lit "Health")
        (lit "\x7b\"Health\":(current:50.0,max:100.0)\x7d")
      = some (lit "(current:50.0,max:100.0)") := ⟨rfl, rfl⟩

/-- The registered unit type of the unit-recovery scenario. -/
def markerReg : TypeRegistration :=
  { typePath := lit "MarkerType"
  , shape := .unitS (lit "MarkerType")
  , bridgeTag := true
  , exposedTag := false
  , hasReflectComponent := true
  , hasReflectDeserialize := false }

/-- C7: restoring from a blob holding `"MarkerType":MarkerType` installs the
`MarkerType` unit value; the generic parser reads the token as an untyped
unit, and the fallback recovers the identifier from the raw blob up to the
next closing brace, defaulting to `()` when the recovered token is empty. -/
theorem C7_unit_identifier_recovery :
    process_single_component [markerReg] [] (lit "MarkerType")
        (lit "\x7b\"MarkerType\":MarkerType\x7d")
      = .ok [(lit "MarkerType", .unitV (lit "MarkerType"))] ∧
    extract_component_data (lit "MarkerType") (lit "\x7b\"MarkerType\":MarkerType\x7d")
      = some (lit "MarkerType") ∧
    extractUnitIdentifier (lit "X") (lit "\x7b\"X\":\x7d") = some (lit "()") ∧
    ronFromStr (lit "\x7b\"MarkerType\":MarkerType\x7d")
      = some (.map [(.strV (lit "MarkerType"), .unit)]) := ⟨rfl, rfl, rfl, rfl⟩

/-- The three-float tuple-struct registration of the sequence scenario. -/
def vec3Reg : TypeRegistration :=
  { typePath := lit "T"
  , shape := .tupleS (lit "T") [.floatS, .floatS, .floatS]
  , bridgeTag := true
  , exposedTag := false
  , hasReflectComponent := true
  , hasReflectDeserialize := false }

/-- C9: the fallback path re-renders the parsed sequence `[1.0, 2.0, 3.0]`
as the tuple `(1.0,2.0,3.0)` (wrapper-stripping and bracket rewriting applied
per element), and restoring the bracketed blob installs the same component as
restoring the directly parenthesized form. -/
theorem C9_seq_to_tuple :
    convert_seq_to_tuple [.num (lit "1.0"), .num (lit "2.0"), .num (lit "3.0")]
      = lit "(1.0,2.0,3.0)" ∧
    extract_component_data (lit "T") (lit "\x7b\"T\":[1.0,2.0,3.0]\x7d")
      = some (lit "(1.0,2.0,3.0)") ∧
    process_single_component [vec3Reg] [] (lit "T") (lit "\x7b\"T\":[1.0,2.0,3.0]\x7d")
      = .ok [(lit "T",
          .tupleV [.float (lit "1.0"), .float (lit "2.0"), .float (lit "3.0")])] ∧
    process_single_component [vec3Reg] [] (lit "T") (lit "\x7b\"T\":[1.0,2.0,3.0]\x7d")
      = process_single_component [vec3Reg] [] (lit "T")
          (lit "\x7b\"T\":(1.0, 2.0, 3.0)\x7d") ∧
    typedReflectDeserialize vec3Reg.shape (lit "(1.0,2.0,3.0)")
      = typedReflectDeserialize vec3Reg.shape (lit "(1.0, 2.0, 3.0)") :=
  ⟨rfl, rfl, rfl, rfl, rfl⟩

theorem containsSub_append_mid (a name b : Str) :
    containsSub (a ++ (name ++ b)) name = true := by
  induction a with
  | nil =>
    simp only [List.nil_append, containsSub]
    cases hnb : name ++ b with
    | nil =>
      have hn : name = [] := by
        cases name with
        | nil => rfl
        | cons x xs => simp at hnb
      simp [findSubstrIdx, hn]
    | cons c cs =>
      rw [findSubstrIdx]
      have : name.isPrefixOf (c :: cs) = true := by
        rw [← hnb]; exact isPrefixOf_append_self name b
      simp [this]
  | cons x xs ih =>
    simp only [List.cons_append, containsSub, findSubstrIdx, List.append_eq]
    by_cases hp : name.isPrefixOf (x :: (xs ++ (name ++ b))) = true
    · simp [hp]
    · rw [if_neg hp]
      have ih2 : (findSubstrIdx name (xs ++ (name ++ b))).isSome = true := by
        simpa [containsSub] using ih
      cases hfi : findSubstrIdx name (xs ++ (name ++ b)) with
      | none => rw [hfi] at ih2; simp at ih2
      | some k => rfl

theorem try_typed_error_contains (e : EntityComps) (name s : Str)
    (r : TypeRegistration) (msg : Str)
    (h : try_typed_reflection_deserialize e name s r = .error msg) :
    containsSub msg name = true := by
  unfold try_typed_reflection_deserialize at h
  cases hd : typedReflectDeserialize r.shape s with
  | none =>
    simp only [hd] at h
    cases h
    have : lit "Failed to deserialize component " ++ name ++ lit " via typed reflection"
        = lit "Failed to deserialize component "
          ++ (name ++ lit " via typed reflection") := by simp
    rw [this]
    exact containsSub_append_mid _ name _
  | some v =>
    simp only [hd] at h
    unfold insert_reflected_component at h
    by_cases hrc : r.hasReflectComponent = true
    · rw [if_pos hrc] at h
      by_cases hany : (e.any (fun c => c.1 == r.typePath)) = true
      · rw [if_pos hany] at h; cases h
      · rw [if_neg hany] at h; cases h
    · rw [if_neg hrc] at h
      cases h
      have : lit "No ReflectComponent found for: " ++ name
          = lit "No ReflectComponent found for: " ++ (name ++ []) := by simp
      rw [this]
      exact containsSub_append_mid _ name _

/-- C6: the schema-driven `ReflectDeserialize` strategy is used first and
only when the registration carries it; the registry-aware typed strategy is
used on its absence or failure, re-reading the same extracted text; and a
deserialization failure of the whole step is an error that carries the type
name. -/
theorem C6_strategy_order :
    (∀ (e : EntityComps) (name s : Str) (r : TypeRegistration),
      r.hasReflectDeserialize = false →
      deserialize_and_insert_component e name s r
        = try_typed_reflection_deserialize e name s r) ∧
    (∀ (e : EntityComps) (name s : Str) (r : TypeRegistration) (e2 : EntityComps),
      r.hasReflectDeserialize = true →
      try_reflect_deserialize e name s r = .ok e2 →
      deserialize_and_insert_component e name s r = .ok e2) ∧
    (∀ (e : EntityComps) (name s : Str) (r : TypeRegistration) (msg : Str),
      try_reflect_deserialize e name s r = .error msg →
      deserialize_and_insert_component e name s r
        = try_typed_reflection_deserialize e name s r) ∧
    (∀ (e : EntityComps) (name s : Str) (r : TypeRegistration) (msg : Str),
      deserialize_and_insert_component e name s r = .error msg →
      containsSub msg name = true) := by
  refine ⟨?_, ?_, ?_, ?_⟩
  · intro e name s r h
    unfold deserialize_and_insert_component
    rw [h]
    simp
  · intro e name s r e2 h hok
    unfold deserialize_and_insert_component
    rw [h, hok]
    simp
  · intro e name s r msg herr
    unfold deserialize_and_insert_component
    by_cases h : r.hasReflectDeserialize = true
    · rw [if_pos h, herr]
    · rw [if_neg h]
  · intro e name s r msg h
    unfold deserialize_and_insert_component at h
    by_cases hrd : r.hasReflectDeserialize = true
    · rw [if_pos hrd] at h
      cases hr1 : try_reflect_deserialize e name s r with
      | ok e2 => rw [hr1] at h; cases h
      | error m1 =>
        rw [hr1] at h
        exact try_typed_error_contains e name s r msg h
    · rw [if_neg hrd] at h
      exact try_typed_error_contains e name s r msg h

/-- The unit registration with `ReflectDeserialize` data present, exercising
strategy 1. -/
def markerRegRD : TypeRegistration :=
  { typePath := lit "MarkerType"
  , shape := .unitS (lit "MarkerType")
  , bridgeTag := true
  , exposedTag := false
  , hasReflectComponent := true
  , hasReflectDeserialize := true }

/-- Witness for C6: strategy dispatch at concrete inputs (no
`ReflectDeserialize` data; successful strategy 1; total failure carrying the
type name). -/
theorem C6_strategy_order_witness :
    deserialize_and_insert_component [] (lit "MarkerType") (lit "MarkerType") markerReg
      = try_typed_reflection_deserialize [] (lit "MarkerType") (lit "MarkerType")
          markerReg ∧
    deserialize_and_insert_component [] (lit "MarkerType") (lit "MarkerType") markerRegRD
      = .ok [(lit "MarkerType", .unitV (lit "MarkerType"))] ∧
    containsSub (lit "Failed to deserialize component MarkerType via typed reflection")
      (lit "MarkerType") = true :=
  ⟨C6_strategy_order.1 [] (lit "MarkerType") (lit "MarkerType") markerReg rfl,
   C6_strategy_order.2.1 [] (lit "MarkerType") (lit "MarkerType") markerRegRD
     [(lit "MarkerType", .unitV (lit "MarkerType"))] rfl rfl,
   C6_strategy_order.2.2.2 [] (lit "MarkerType") (lit "!!") markerRegRD
     (lit "Failed to deserialize component MarkerType via typed reflection") rfl⟩

/-- Counterexample to C8: with a later quoted component in the blob, the
`rfind`-based direct extraction pulls text past the component's own closing
quote. -/
theorem C8_counterexample :
    try_extract_ron_component (lit "A") (lit "\x7b\"A\":\"x\",\"B\":\"y\"\x7d")
      = some (lit "x\",\"B\":\"y") ∧
    lit "x\",\"B\":\"y" ≠ lit "x" := ⟨rfl, by decide⟩

theorem findSubstrIdx_self_append (pat tail : Str) :
    findSubstrIdx pat (pat ++ tail) = some 0 := by
  cases pat with
  | nil =>
    cases tail with
    | nil => simp [findSubstrIdx]
    | cons c cs => simp [findSubstrIdx, List.isPrefixOf]
  | cons p ps =>
    have h := isPrefixOf_append_self (p :: ps) tail
    rw [List.cons_append] at h
    simp only [List.cons_append, findSubstrIdx, List.append_eq, h]
    simp

theorem findSubstrIdx_single_append (c : Char) (t u : Str) (h : c ∉ t) :
    findSubstrIdx [c] (t ++ c :: u) = some t.length := by
  induction t with
  | nil =>
    simp only [List.nil_append, findSubstrIdx, List.isPrefixOf]
    simp
  | cons x xs ih =>
    have hx : c ≠ x := fun hh => h (by simp [hh])
    have hbeq : (c == x) = false := by
      simp only [beq_eq_false_iff_ne, ne_eq]; exact hx
    simp only [List.cons_append, findSubstrIdx, List.isPrefixOf, hbeq, Bool.false_and,
      Bool.false_eq_true, if_false, List.append_eq]
    rw [ih (fun hh => h (by simp [hh]))]
    simp

theorem rfindChar_append (c : Char) (a b : Str) (h : c ∉ b) :
    rfindChar c (a ++ c :: b) = some a.length := by
  unfold rfindChar
  have hrev : (a ++ c :: b).reverse = b.reverse ++ c :: a.reverse := by
    simp
  rw [hrev, findSubstrIdx_single_append c _ _ (by simpa using h)]
  show some ((a ++ c :: b).length - 1 - b.reverse.length) = some a.length
  have harith : (a ++ c :: b).length - 1 - b.reverse.length = a.length := by
    simp only [List.length_append, List.length_cons, List.length_reverse]
    omega
  rw [harith]

theorem unescape_escapeStr :
    ∀ (v : Str) (fuel : Nat), '\\' ∉ v → (escapeStr v).length < fuel →
      replaceAllF (lit "\\\"") ['"'] fuel (escapeStr v) = v := by
  intro v
  induction v with
  | nil =>
    intro fuel hb hf
    cases fuel with
    | zero => simp [escapeStr] at hf
    | succ n => simp [escapeStr, replaceAllF]
  | cons c cs ih =>
    intro fuel hb hf
    have hbc : c ≠ '\\' := fun hh => hb (by simp [hh])
    have hbcs : '\\' ∉ cs := fun hh => hb (by simp [hh])
    by_cases hq : c = '"'
    · subst hq
      have hesc : escapeStr ('"' :: cs) = '\\' :: '"' :: escapeStr cs := by
        simp [escapeStr]
      rw [hesc] at hf ⊢
      cases fuel with
      | zero => omega
      | succ n =>
        have hcond : (!(lit "\\\"").isEmpty
            && (lit "\\\"").isPrefixOf ('\\' :: '"' :: escapeStr cs)) = true := by
          simp [lit, List.isPrefixOf]
        have hstep : replaceAllF (lit "\\\"") ['"'] (n + 1) ('\\' :: '"' :: escapeStr cs)
            = ['"'] ++ replaceAllF (lit "\\\"") ['"'] n
                ((('\\' : Char) :: '"' :: escapeStr cs).drop (lit "\\\"").length) := by
          simp only [replaceAllF]
          rw [if_pos hcond]
        rw [hstep]
        have hdrop : (('\\' : Char) :: '"' :: escapeStr cs).drop (lit "\\\"").length
            = escapeStr cs := by
          simp [lit]
        rw [hdrop, ih n hbcs (by simp only [List.length_cons] at hf; omega)]
        rfl
    · have hesc : escapeStr (c :: cs) = c :: escapeStr cs := by
        have hno : (c == '"' || c == '\\') = false := by
          simp only [Bool.or_eq_false_iff, beq_eq_false_iff_ne, ne_eq]
          exact ⟨hq, hbc⟩
        simp [escapeStr, hno]
      rw [hesc] at hf ⊢
      cases fuel with
      | zero => omega
      | succ n =>
        have hpre : (lit "\\\"").isPrefixOf (c :: escapeStr cs) = false := by
          have hbb : (('\\' : Char) == c) = false := by
            simp only [beq_eq_false_iff_ne, ne_eq]
            exact fun hh => hbc hh.symm
          simp [lit, List.isPrefixOf, hbb]
        have hcond : (!(lit "\\\"").isEmpty
            && (lit "\\\"").isPrefixOf (c :: escapeStr cs)) = false := by
          simp [hpre]
        have hstep : replaceAllF (lit "\\\"") ['"'] (n + 1) (c :: escapeStr cs)
            = c :: replaceAllF (lit "\\\"") ['"'] n (escapeStr cs) := by
          simp only [replaceAllF]
          rw [if_neg (by simp [hcond])]
        rw [hstep, ih n hbcs (by simp only [List.length_cons] at hf; omega)]

theorem trimStartS_not_ws {c : Char} (h : isWs c = false) (t : Str) :
    trimStartS (c :: t) = c :: t := by
  simp [trimStartS, h]

/-- C8 amended: direct extraction takes everything between the quote that
follows the `"<name>":` key and the last double quote of the remaining blob,
unescaping `\"`; this equals the component's own quoted value exactly when no
double quote occurs after it (for example when it is the blob's last quoted
entry), and for values free of backslashes.  The counterexample shows the
claim as stated fails once a later quoted component follows. -/
theorem C8_direct_extraction_amended :
    ∀ (name v suffix : Str), '\\' ∉ v → '"' ∉ suffix →
      try_extract_ron_component name
          (lbrace :: '"' :: name ++ '"' :: ':' :: '"' :: escapeStr v ++ '"' :: suffix)
        = some v := by
  intro name v suffix hbv hqs
  have hblob : lbrace :: '"' :: name ++ '"' :: ':' :: '"' :: escapeStr v ++ '"' :: suffix
      = lbrace :: (('"' :: name ++ lit "\":")
          ++ ('"' :: escapeStr v ++ '"' :: suffix)) := by
    simp [lit]
  rw [hblob]
  have hpreq : (('"' :: name ++ lit "\":").isPrefixOf
      (lbrace :: (('"' :: name ++ lit "\":") ++ ('"' :: escapeStr v ++ '"' :: suffix))))
      = false := by
    have hqb : (('"' : Char) == lbrace) = false := by decide
    simp only [List.isPrefixOf, hqb, Bool.false_and]
  have hfind : findSubstrIdx ('"' :: name ++ lit "\":")
      (lbrace :: (('"' :: name ++ lit "\":") ++ ('"' :: escapeStr v ++ '"' :: suffix)))
      = some 1 := by
    rw [findSubstrIdx, if_neg (by rw [hpreq]; simp)]
    rw [findSubstrIdx_self_append]
    rfl
  have hdrop : (lbrace :: (('"' :: name ++ lit "\":")
        ++ ('"' :: escapeStr v ++ '"' :: suffix))).drop
          (1 + ('"' :: name ++ lit "\":").length)
      = '"' :: escapeStr v ++ '"' :: suffix := by
    have h1 : 1 + ('"' :: name ++ lit "\":").length
        = ('"' :: name ++ lit "\":").length + 1 := by omega
    rw [h1, List.drop_succ_cons, List.drop_left]
  have htrim : trimStartS ('"' :: escapeStr v ++ '"' :: suffix)
      = '"' :: escapeStr v ++ '"' :: suffix := trimStartS_not_ws (by decide) _
  have hhead : ((('"' : Char) :: escapeStr v ++ '"' :: suffix).headD ' ' == '"')
      = true := by simp
  have hdrop1 : (('"' : Char) :: escapeStr v ++ '"' :: suffix).drop 1
      = escapeStr v ++ '"' :: suffix := by simp
  have hrf : rfindChar '"' (escapeStr v ++ '"' :: suffix)
      = some (escapeStr v).length := rfindChar_append '"' (escapeStr v) suffix hqs
  have htake : (escapeStr v ++ '"' :: suffix).take (escapeStr v).length
      = escapeStr v := List.take_left _ _
  have hune : replaceAll (lit "\\\"") ['"'] (escapeStr v) = v := by
    rw [replaceAll]
    exact unescape_escapeStr v ((escapeStr v).length + 1) hbv (by omega)
  simp only [try_extract_ron_component, hfind, hdrop, htrim, hhead, hdrop1, hrf,
    htake, hune, if_true]

/-- Witness for C8's amended statement at a concrete blob. -/
theorem C8_direct_extraction_amended_witness :
    ('\\' ∉ lit "x") ∧ ('"' ∉ lit "\x7d") ∧
    try_extract_ron_component (lit "A")
        (lbrace :: '"' :: lit "A" ++ '"' :: ':' :: '"' :: escapeStr (lit "x")
          ++ '"' :: lit "\x7d")
      = some (lit "x") :=
  ⟨by decide, by decide,
    C8_direct_extraction_amended (lit "A") (lit "x") (lit "\x7d") (by decide) (by decide)⟩

/-- A well-formed numeric literal token: nonempty, starting and continuing
with numeric-literal characters. -/
def validTokB (tok : Str) : Bool :=
  !tok.isEmpty && isNumStart (tok.headD ' ') && tok.all isNumChar

/-- A well-formed RON identifier (used for struct field names). -/
def validIdentB (s : Str) : Bool :=
  !s.isEmpty && isIdentStart (s.headD ' ') && s.all isIdentChar

/-- A well-formed full type path: identifier characters and `::` separators
(in particular no quote, backslash, whitespace or brace). -/
def validPathB (p : Str) : Bool :=
  !p.isEmpty && p.all (fun c => isIdentChar c || c == ':')

/-- Whether the rest of the input may directly follow a numeric literal
without extending it. -/
def delimOkB (rest : Str) : Bool :=
  match rest with
  | [] => true
  | c :: _ => !isNumChar c

mutual

/-- Field lists of a supported struct schema: valid distinct field names with
supported field shapes. -/
def fieldsOkB : List (Str × TypeShape) → Bool
  | [] => true
  | (n, sh) :: rest =>
    validIdentB n && !(rest.any (fun p => p.1 == n))
      && supportedFieldB sh && fieldsOkB rest

/-- Field shapes covered by the round-trip claim: float leaves and
nested-map-valued (struct) fields. -/
def supportedFieldB : TypeShape → Bool
  | .floatS => true
  | .structS _ fields => !fields.isEmpty && fieldsOkB fields
  | _ => false

end

/-- Top-level component shapes covered by the round-trip claim: structs,
tuple structs of floats, and unit structs. -/
def supportedTopB : TypeShape → Bool
  | .unitS _ => true
  | .structS _ fields => !fields.isEmpty && fieldsOkB fields
  | .tupleS _ elems =>
    !elems.isEmpty && elems.all (fun sh => match sh with | .floatS => true | _ => false)
  | .floatS => false

mutual

/-- A reflected value conforming to a schema (with well-formed leaf
tokens). -/
def conformsB : TypeShape → RValue → Bool
  | .floatS, .float tok => validTokB tok
  | .unitS n, .unitV m => m == n
  | .structS _ fields, .structV fv => conformsFieldsB fields fv
  | .tupleS _ elems, .tupleV ev => conformsElemsB elems ev
  | _, _ => false

/-- Field-wise conformance: same names in declaration order. -/
def conformsFieldsB : List (Str × TypeShape) → List (Str × RValue) → Bool
  | [], [] => true
  | (n, sh) :: fs, (m, v) :: gs => m == n && conformsB sh v && conformsFieldsB fs gs
  | _, _ => false

/-- Element-wise conformance. -/
def conformsElemsB : List TypeShape → List RValue → Bool
  | [], [] => true
  | sh :: ss, v :: vs => conformsB sh v && conformsElemsB ss vs
  | _, _ => false

end

mutual

/-- The image of a reflected value under the generic `ron::Value` parse of
its serialized text: floats stay literal tokens, unit structs lose their
identifier, structs become maps, tuples become sequences. -/
def ronOfB : RValue → RonValue
  | .float tok => .num tok
  | .unitV _ => .unit
  | .structV fields => .map (ronOfFieldsB fields)
  | .tupleV elems => .seq (ronOfElemsB elems)

/-- Entry-wise image of struct fields. -/
def ronOfFieldsB : List (Str × RValue) → List (RonValue × RonValue)
  | [] => []
  | (n, v) :: rest => (.strV n, ronOfB v) :: ronOfFieldsB rest

/-- Element-wise image of tuple elements. -/
def ronOfElemsB : List RValue → List RonValue
  | [] => []
  | v :: rest => ronOfB v :: ronOfElemsB rest

end

mutual

/-- Fuel needed by `parseValueF` to parse this value's rendering. -/
def ronNeed : RonValue → Nat
  | .unit => 1
  | .boolV _ => 1
  | .num _ => 1
  | .strV _ => 1
  | .seq l => 1 + ronNeedL l
  | .map m => 1 + ronNeedE m

/-- Fuel needed by the sequence-item loop. -/
def ronNeedL : List RonValue → Nat
  | [] => 1
  | v :: rest => 1 + max (ronNeed v) (ronNeedL rest)

/-- Fuel needed by the map-entry loop. -/
def ronNeedE : List (RonValue × RonValue) → Nat
  | [] => 1
  | (k, v) :: rest => 1 + max (ronNeed k) (max (ronNeed v) (ronNeedE rest))

end

theorem beq_false_of_pred (p : Char → Bool) {c x : Char}
    (h : p c = true) (hx : p x = false) : (c == x) = false := by
  by_cases he : c = x
  · subst he
    rw [h] at hx
    cases hx
  · simp only [beq_eq_false_iff_ne, ne_eq]
    exact he

theorem isNumStart_isNumChar {c : Char} (h : isNumStart c = true) :
    isNumChar c = true := by
  simp only [isNumStart, Bool.or_eq_true] at h
  rcases h with h | h <;> simp [isNumChar, h]

theorem isIdentStart_isIdentChar {c : Char} (h : isIdentStart c = true) :
    isIdentChar c = true := by
  simp only [isIdentStart, Bool.or_eq_true] at h
  rcases h with h | h <;> simp [isIdentChar, h]

theorem isNumStart_not_identStart {c : Char} (h : isNumStart c = true) :
    isIdentStart c = false := by
  simp only [isNumStart, Bool.or_eq_true] at h
  rcases h with h | h
  · simp only [isDigitC, decide_eq_true_eq] at h
    simp only [isIdentStart, isAlphaC, Bool.or_eq_false_iff, decide_eq_false_iff_not]
    constructor
    · omega
    · exact beq_false_of_pred isDigitC (by simp [isDigitC]; omega) (by decide)
  · have hc : c = '-' := eq_of_beq h
    subst hc
    decide

theorem isIdentStart_not_numStart {c : Char} (h : isIdentStart c = true) :
    isNumStart c = false := by
  simp only [isIdentStart, Bool.or_eq_true] at h
  rcases h with h | h
  · simp only [isAlphaC, decide_eq_true_eq] at h
    simp only [isNumStart, Bool.or_eq_false_iff]
    constructor
    · simp only [isDigitC, decide_eq_false_iff_not]
      omega
    · exact beq_false_of_pred isAlphaC (by simpa [isAlphaC] using h) (by decide)
  · have hc : c = '_' := eq_of_beq h
    subst hc
    decide

theorem isWs_false_of_numStart {c : Char} (h : isNumStart c = true) :
    isWs c = false := by
  simp only [isWs, Bool.or_eq_false_iff]
  exact ⟨⟨⟨beq_false_of_pred isNumStart h (by decide),
    beq_false_of_pred isNumStart h (by decide)⟩,
    beq_false_of_pred isNumStart h (by decide)⟩,
    beq_false_of_pred isNumStart h (by decide)⟩

theorem isWs_false_of_identStart {c : Char} (h : isIdentStart c = true) :
    isWs c = false := by
  simp only [isWs, Bool.or_eq_false_iff]
  exact ⟨⟨⟨beq_false_of_pred isIdentStart h (by decide),
    beq_false_of_pred isIdentStart h (by decide)⟩,
    beq_false_of_pred isIdentStart h (by decide)⟩,
    beq_false_of_pred isIdentStart h (by decide)⟩

theorem takeWhile_append_stop (p : Char → Bool) :
    ∀ (a rest : Str), a.all p = true →
      (match rest with | [] => true | c :: _ => !p c) = true →
      (a ++ rest).takeWhile p = a := by
  intro a
  induction a with
  | nil =>
    intro rest _ hstop
    cases rest with
    | nil => rfl
    | cons c cs =>
      simp only [Bool.not_eq_eq_eq_not, Bool.not_true] at hstop
      simp [List.takeWhile, hstop]
  | cons x xs ih =>
    intro rest hall hstop
    simp only [List.all_cons, Bool.and_eq_true] at hall
    simp only [List.cons_append, List.takeWhile, hall.1, List.append_eq]
    rw [ih rest hall.2 hstop]

theorem dropWhile_append_stop (p : Char → Bool) :
    ∀ (a rest : Str), a.all p = true →
      (match rest with | [] => true | c :: _ => !p c) = true →
      (a ++ rest).dropWhile p = rest := by
  intro a
  induction a with
  | nil =>
    intro rest _ hstop
    cases rest with
    | nil => rfl
    | cons c cs =>
      simp only [Bool.not_eq_eq_eq_not, Bool.not_true] at hstop
      simp [List.dropWhile, hstop]
  | cons x xs ih =>
    intro rest hall hstop
    simp only [List.all_cons, Bool.and_eq_true] at hall
    simp only [List.cons_append, List.dropWhile, hall.1, List.append_eq]
    exact ih rest hall.2 hstop

theorem parseStrBody_cons (c : Char) (cs : Str) :
    parseStrBody (c :: cs)
      = if c == '"' then some ([], cs)
        else if c == '\\' then
          (match cs with
           | [] => none
           | d :: ds => (parseStrBody ds).map (fun p => (d :: p.1, p.2)))
        else (parseStrBody cs).map (fun p => (c :: p.1, p.2)) := by
  cases cs <;> rfl

theorem parseStrBody_escape :
    ∀ (s rest : Str), parseStrBody (escapeStr s ++ '"' :: rest) = some (s, rest) := by
  intro s
  induction s with
  | nil =>
    intro rest
    show parseStrBody ('"' :: rest) = some ([], rest)
    rw [parseStrBody_cons]
    simp
  | cons c cs ih =>
    intro rest
    by_cases hs : (c == '"' || c == '\\') = true
    · have hesc : escapeStr (c :: cs) = '\\' :: c :: escapeStr cs := by
        simp only [escapeStr, hs, if_pos]
      rw [hesc]
      simp only [List.cons_append]
      rw [parseStrBody_cons]
      rw [if_neg (by decide), if_pos (by decide)]
      show (parseStrBody (escapeStr cs ++ '"' :: rest)).map (fun p => (c :: p.1, p.2))
          = some (c :: cs, rest)
      rw [ih rest]
      rfl
    · have hesc : escapeStr (c :: cs) = c :: escapeStr cs := by
        simp only [escapeStr, hs, Bool.false_eq_true, if_false]
      rw [hesc]
      simp only [Bool.or_eq_true, not_or] at hs
      have h1 : (c == '"') = false := by
        cases hb : (c == '"') with
        | false => rfl
        | true => exact absurd hb hs.1
      have h2 : (c == '\\') = false := by
        cases hb : (c == '\\') with
        | false => rfl
        | true => exact absurd hb hs.2
      simp only [List.cons_append]
      rw [parseStrBody_cons, if_neg (by rw [h1]; simp), if_neg (by rw [h2]; simp)]
      rw [ih rest]
      rfl

theorem ronNeed_pos : ∀ v : RonValue, 1 ≤ ronNeed v := by
  intro v
  cases v <;> simp [ronNeed]

theorem ronNeedE_pos : ∀ m : List (RonValue × RonValue), 1 ≤ ronNeedE m := by
  intro m
  cases m with
  | nil => simp [ronNeedE]
  | cons kv rest => obtain ⟨k, v⟩ := kv; simp [ronNeedE]

theorem ronNeedL_pos : ∀ l : List RonValue, 1 ≤ ronNeedL l := by
  intro l
  cases l <;> simp [ronNeedL]

theorem validTokB_parts {tok : Str} (h : validTokB tok = true) :
    ∃ c toks, tok = c :: toks ∧ isNumStart c = true ∧ tok.all isNumChar = true := by
  cases tok with
  | nil => simp [validTokB] at h
  | cons c toks =>
    simp only [validTokB, Bool.and_eq_true] at h
    exact ⟨c, toks, rfl, by simpa using h.1.2, h.2⟩

theorem validIdentB_parts {s : Str} (h : validIdentB s = true) :
    ∃ c t, s = c :: t ∧ isIdentStart c = true ∧ s.all isIdentChar = true := by
  cases s with
  | nil => simp [validIdentB] at h
  | cons c t =>
    simp only [validIdentB, Bool.and_eq_true] at h
    exact ⟨c, t, rfl, by simpa using h.1.2, h.2⟩

theorem serializeFields_cons_shape (n : Str) (w : RValue) (gs : List (Str × RValue)) :
    ∃ t, serializeFields ((n, w) :: gs) = n ++ ':' :: t := by
  cases gs with
  | nil => exact ⟨serializeRValue w, rfl⟩
  | cons g gs' =>
    exact ⟨serializeRValue w ++ ',' :: serializeFields (g :: gs'),
      by simp [serializeFields]⟩

theorem trimStartS_numStart {c : Char} (h : isNumStart c = true) (t : Str) :
    trimStartS (c :: t) = c :: t := trimStartS_not_ws (isWs_false_of_numStart h) t

theorem trimStartS_identStart {c : Char} (h : isIdentStart c = true) (t : Str) :
    trimStartS (c :: t) = c :: t := trimStartS_not_ws (isWs_false_of_identStart h) t

theorem serializeElems_cons_shape (w : RValue) (ws : List RValue) :
    ∃ t, serializeElems (w :: ws) = serializeRValue w ++ t := by
  cases ws with
  | nil => exact ⟨[], by simp [serializeElems]⟩
  | cons w1 ws' =>
    exact ⟨',' :: serializeElems (w1 :: ws'), by simp [serializeElems]⟩

theorem printParseGeneric :
    ∀ fuel : Nat,
      (∀ (sh : TypeShape) (v : RValue) (rest : Str),
        (supportedTopB sh || supportedFieldB sh) = true →
        conformsB sh v = true →
        (match rest with | [] => true | c :: _ => !isNumChar c) = true →
        ronNeed (ronOfB v) ≤ fuel →
        parseValueF fuel (serializeRValue v ++ rest) = some (ronOfB v, rest)) ∧
      (∀ (fields : List (Str × TypeShape)) (fv : List (Str × RValue)) (rest : Str),
        fieldsOkB fields = true →
        conformsFieldsB fields fv = true →
        fields ≠ [] →
        ronNeedE (ronOfFieldsB fv) ≤ fuel →
        parseStructFieldsF fuel (serializeFields fv ++ ')' :: rest)
          = some (ronOfFieldsB fv, rest)) ∧
      (∀ (elems : List TypeShape) (ev : List RValue) (rest : Str),
        (elems.all fun sh => match sh with | .floatS => true | _ => false) = true →
        conformsElemsB elems ev = true →
        elems ≠ [] →
        ronNeedL (ronOfElemsB ev) ≤ fuel →
        parseTupleItemsF fuel (serializeElems ev ++ ')' :: rest)
          = some (ronOfElemsB ev, rest)) := by
  intro fuel
  induction fuel with
  | zero =>
    refine ⟨?_, ?_, ?_⟩
    · intro sh v rest _ _ _ hfuel
      have := ronNeed_pos (ronOfB v)
      omega
    · intro fields fv rest _ _ _ hfuel
      have := ronNeedE_pos (ronOfFieldsB fv)
      omega
    · intro elems ev rest _ _ _ hfuel
      have := ronNeedL_pos (ronOfElemsB ev)
      omega
  | succ n ih =>
    obtain ⟨ihA, ihB, ihC⟩ := ih
    refine ⟨?_, ?_, ?_⟩
    -- Part A: values
    · intro sh v rest hsupp hconf hstop hfuel
      cases sh with
      | floatS =>
        cases v with
        | unitV m => simp [conformsB] at hconf
        | structV fv => simp [conformsB] at hconf
        | tupleV ev => simp [conformsB] at hconf
        | float tok =>
          have hconf' : validTokB tok = true := by simpa [conformsB] using hconf
          obtain ⟨c0, toks, rfl, hstart, hall⟩ := validTokB_parts hconf'
          have hser : serializeRValue (.float (c0 :: toks)) = c0 :: toks := by
            simp [serializeRValue]
          rw [hser]
          have hro : ronOfB (.float (c0 :: toks)) = .num (c0 :: toks) := by
            simp [ronOfB]
          rw [hro]
          simp only [List.cons_append, parseValueF]
          rw [trimStartS_numStart hstart]
          have h1 : (c0 == '"') = false := beq_false_of_pred isNumStart hstart (by decide)
          have h2 : (c0 == lbrace) = false := beq_false_of_pred isNumStart hstart (by decide)
          have h3 : (c0 == '[') = false := beq_false_of_pred isNumStart hstart (by decide)
          have h4 : (c0 == '(') = false := beq_false_of_pred isNumStart hstart (by decide)
          simp only [h1, h2, h3, h4, Bool.false_eq_true, if_false, hstart, if_true]
          rw [← List.cons_append]
          rw [takeWhile_append_stop isNumChar (c0 :: toks) rest hall hstop]
          rw [dropWhile_append_stop isNumChar (c0 :: toks) rest hall hstop]
      | unitS nm =>
        cases v with
        | float tok => simp [conformsB] at hconf
        | structV fv => simp [conformsB] at hconf
        | tupleV ev => simp [conformsB] at hconf
        | unitV m =>
          have hser : serializeRValue (.unitV m) = '(' :: [')'] := by
            simp [serializeRValue, lit]
          have hro : ronOfB (.unitV m) = .unit := by simp [ronOfB]
          rw [hser, hro]
          simp only [List.cons_append, List.nil_append, parseValueF]
          rw [trimStartS_not_ws (by decide)]
          simp only [show (('(' : Char) == '"') = false from by decide,
            show (('(' : Char) == lbrace) = false from by decide,
            show (('(' : Char) == '[') = false from by decide,
            show (('(' : Char) == '(') = true from by decide,
            Bool.false_eq_true, if_false, if_true]
          rw [trimStartS_not_ws (by decide)]
          rfl
      | structS nm fields =>
        cases v with
        | float tok => simp [conformsB] at hconf
        | unitV m => simp [conformsB] at hconf
        | tupleV ev => simp [conformsB] at hconf
        | structV fv =>
          have hsupp' : (!fields.isEmpty && fieldsOkB fields) = true := by
            simpa [supportedTopB, supportedFieldB, Bool.or_self] using hsupp
          simp only [Bool.and_eq_true] at hsupp'
          obtain ⟨hnef, hfok⟩ := hsupp'
          have hne : fields ≠ [] := by
            cases fields with
            | nil => simp at hnef
            | cons f fs => simp
          have hconfF : conformsFieldsB fields fv = true := by
            simpa [conformsB] using hconf
          -- shape of fv
          obtain ⟨n0, sh0, fs, hfields⟩ : ∃ n0 sh0 fs, fields = (n0, sh0) :: fs := by
            cases fields with
            | nil => exact absurd rfl hne
            | cons f fs => exact ⟨f.1, f.2, fs, rfl⟩
          subst hfields
          obtain ⟨m0, w0, gs, hfv⟩ : ∃ m0 w0 gs, fv = (m0, w0) :: gs := by
            cases fv with
            | nil => simp [conformsFieldsB] at hconfF
            | cons g gs => exact ⟨g.1, g.2, gs, rfl⟩
          subst hfv
          have hconfF' := hconfF
          simp only [conformsFieldsB, Bool.and_eq_true] at hconfF'
          obtain ⟨⟨hmn, _⟩, _⟩ := hconfF'
          have hm0 : m0 = n0 := eq_of_beq hmn
          subst m0
          have hvalid : validIdentB n0 = true := by
            simp only [fieldsOkB, Bool.and_eq_true] at hfok
            exact hfok.1.1.1
          obtain ⟨hc, hcs, hn0, hcstart, hcall⟩ := validIdentB_parts hvalid
          obtain ⟨t, ht⟩ := serializeFields_cons_shape n0 w0 gs
          have hser : serializeRValue (.structV ((n0, w0) :: gs)) ++ rest
              = '(' :: (serializeFields ((n0, w0) :: gs) ++ ')' :: rest) := by
            simp [serializeRValue]
          rw [hser]
          have hro : ronOfB (.structV ((n0, w0) :: gs))
              = .map (ronOfFieldsB ((n0, w0) :: gs)) := by simp [ronOfB]
          rw [hro]
          simp only [parseValueF]
          rw [trimStartS_not_ws (by decide)]
          simp only [show (('(' : Char) == '"') = false from by decide,
            show (('(' : Char) == lbrace) = false from by decide,
            show (('(' : Char) == '[') = false from by decide,
            show (('(' : Char) == '(') = true from by decide,
            Bool.false_eq_true, if_false, if_true]
          have hsf : serializeFields ((n0, w0) :: gs) ++ ')' :: rest
              = hc :: (hcs ++ ':' :: (t ++ ')' :: rest)) := by
            rw [ht, hn0]
            simp
          rw [hsf]
          rw [trimStartS_identStart hcstart]
          split
          · next r2 heq =>
            exfalso
            have hh : hc = ')' := by
              have := heq
              injection this with hh1 _
            rw [hh] at hcstart
            exact absurd hcstart (by decide)
          · next t2 hne2 =>
            have hlook : looksLikeField (hc :: (hcs ++ ':' :: (t ++ ')' :: rest)))
                = true := by
              unfold looksLikeField
              have hback : hc :: (hcs ++ ':' :: (t ++ ')' :: rest))
                  = n0 ++ ':' :: (t ++ ')' :: rest) := by
                rw [hn0]; simp
              rw [hback]
              rw [takeWhile_append_stop isIdentChar n0 (':' :: (t ++ ')' :: rest))
                hcall (by change (!isIdentChar ':') = true; decide)]
              have hdrop : (n0 ++ ':' :: (t ++ ')' :: rest)).drop n0.length
                  = ':' :: (t ++ ')' :: rest) := List.drop_left _ _
              rw [hdrop]
              rw [trimStartS_not_ws (by decide)]
              have hhd : (n0 ++ ':' :: (t ++ ')' :: rest)).headD ' ' = hc := by
                rw [hn0]; rfl
              rw [hhd, hcstart]
              simp
            rw [hlook]
            simp only [if_true]
            have hfuel' : ronNeedE (ronOfFieldsB ((n0, w0) :: gs)) ≤ n := by
              rw [hro] at hfuel
              simp only [ronNeed] at hfuel
              omega
            rw [← hsf]
            rw [ihB ((n0, sh0) :: fs) ((n0, w0) :: gs) rest hfok hconfF (by simp) hfuel']
            rfl
      | tupleS nm elems =>
        cases v with
        | float tok => simp [conformsB] at hconf
        | unitV m => simp [conformsB] at hconf
        | structV fv => simp [conformsB] at hconf
        | tupleV ev =>
          have hsupp' : (!elems.isEmpty
              && elems.all (fun sh => match sh with | .floatS => true | _ => false))
              = true := by
            simpa [supportedTopB, supportedFieldB, Bool.or_false] using hsupp
          simp only [Bool.and_eq_true] at hsupp'
          obtain ⟨hnee, hallf⟩ := hsupp'
          have hconfE : conformsElemsB elems ev = true := by
            simpa [conformsB] using hconf
          obtain ⟨sh0, ss, rfl⟩ : ∃ sh0 ss, elems = sh0 :: ss := by
            cases elems with
            | nil => simp at hnee
            | cons sh0 ss => exact ⟨sh0, ss, rfl⟩
          obtain ⟨w0, ws, rfl⟩ : ∃ w0 ws, ev = w0 :: ws := by
            cases ev with
            | nil => simp [conformsElemsB] at hconfE
            | cons w0 ws => exact ⟨w0, ws, rfl⟩
          have hsh0 : sh0 = .floatS := by
            simp only [List.all_cons, Bool.and_eq_true] at hallf
            cases sh0 with
            | floatS => rfl
            | unitS a => simp at hallf
            | structS a b => simp at hallf
            | tupleS a b => simp at hallf
          subst hsh0
          have hconfE' := hconfE
          simp only [conformsElemsB, Bool.and_eq_true] at hconfE'
          obtain ⟨hcw0, _⟩ := hconfE'
          have hw0 : validTokB (match w0 with | .float tok => tok | _ => []) = true
              ∧ ∃ tok, w0 = .float tok := by
            cases w0 with
            | float tok => exact ⟨by simpa [conformsB] using hcw0, tok, rfl⟩
            | unitV m => simp [conformsB] at hcw0
            | structV a => simp [conformsB] at hcw0
            | tupleV a => simp [conformsB] at hcw0
          obtain ⟨_, tok0, rfl⟩ := hw0
          have htok : validTokB tok0 = true := by simpa [conformsB] using hcw0
          obtain ⟨c0, toks0, rfl, hstart0, _⟩ := validTokB_parts htok
          obtain ⟨t, ht⟩ := serializeElems_cons_shape (.float (c0 :: toks0)) ws
          have hser : serializeRValue (.tupleV (RValue.float (c0 :: toks0) :: ws)) ++ rest
              = '(' :: (serializeElems (RValue.float (c0 :: toks0) :: ws)
                  ++ ')' :: rest) := by
            simp [serializeRValue]
          rw [hser]
          have hro : ronOfB (.tupleV (RValue.float (c0 :: toks0) :: ws))
              = .seq (ronOfElemsB (RValue.float (c0 :: toks0) :: ws)) := by
            simp [ronOfB]
          rw [hro]
          simp only [parseValueF]
          rw [trimStartS_not_ws (by decide)]
          simp only [show (('(' : Char) == '"') = false from by decide,
            show (('(' : Char) == lbrace) = false from by decide,
            show (('(' : Char) == '[') = false from by decide,
            show (('(' : Char) == '(') = true from by decide,
            Bool.false_eq_true, if_false, if_true]
          have hse : serializeElems (RValue.float (c0 :: toks0) :: ws) ++ ')' :: rest
              = c0 :: (toks0 ++ (t ++ ')' :: rest)) := by
            rw [ht]
            simp [serializeRValue]
          rw [hse]
          rw [trimStartS_numStart hstart0]
          split
          · next r2 heq =>
            exfalso
            have hh : c0 = ')' := by injection heq with hh1 _
            rw [hh] at hstart0
            exact absurd hstart0 (by decide)
          · next t2 hne2 =>
            have hlook : looksLikeField (c0 :: (toks0 ++ (t ++ ')' :: rest)))
                = false := by
              unfold looksLikeField
              have : (c0 :: (toks0 ++ (t ++ ')' :: rest))).headD ' ' = c0 := rfl
              rw [this, isNumStart_not_identStart hstart0]
              simp
            rw [hlook]
            simp only [Bool.false_eq_true, if_false]
            have hfuel' : ronNeedL (ronOfElemsB (RValue.float (c0 :: toks0) :: ws))
                ≤ n := by
              rw [hro] at hfuel
              simp only [ronNeed] at hfuel
              omega
            rw [← hse]
            rw [ihC (.floatS :: ss) (RValue.float (c0 :: toks0) :: ws) rest hallf
              hconfE (by simp) hfuel']
            rfl
    -- Part B: struct fields
    · intro fields fv rest hfok hconfF hne hfuel
      obtain ⟨n0, sh0, fs, hfields⟩ : ∃ n0 sh0 fs, fields = (n0, sh0) :: fs := by
        cases fields with
        | nil => exact absurd rfl hne
        | cons f fs => exact ⟨f.1, f.2, fs, rfl⟩
      subst hfields
      obtain ⟨m0, w0, gs, hfv⟩ : ∃ m0 w0 gs, fv = (m0, w0) :: gs := by
        cases fv with
        | nil => simp [conformsFieldsB] at hconfF
        | cons g gs => exact ⟨g.1, g.2, gs, rfl⟩
      subst hfv
      have hconfF' := hconfF
      simp only [conformsFieldsB, Bool.and_eq_true] at hconfF'
      obtain ⟨⟨hmn, hcw⟩, hcrest⟩ := hconfF'
      have hm0 : m0 = n0 := eq_of_beq hmn
      subst m0
      simp only [fieldsOkB, Bool.and_eq_true] at hfok
      obtain ⟨⟨⟨hvalid, _⟩, hsupf⟩,hfokrest⟩ := hfok
      obtain ⟨hc, hcs, hn0, hcstart, hcall⟩ := validIdentB_parts hvalid
      have hro : ronOfFieldsB ((n0, w0) :: gs)
          = (.strV n0, ronOfB w0) :: ronOfFieldsB gs := by simp [ronOfFieldsB]
      rw [hro]
      have hfuelw : ronNeed (ronOfB w0) ≤ n := by
        have h1 : ronNeedE (ronOfFieldsB ((n0, w0) :: gs))
            = 1 + max (ronNeed (RonValue.strV n0))
                (max (ronNeed (ronOfB w0)) (ronNeedE (ronOfFieldsB gs))) := by
          simp [ronOfFieldsB, ronNeedE]
        rw [h1] at hfuel
        omega
      have hfuelrest : ronNeedE (ronOfFieldsB gs) ≤ n := by
        have h1 : ronNeedE (ronOfFieldsB ((n0, w0) :: gs))
            = 1 + max (ronNeed (RonValue.strV n0))
                (max (ronNeed (ronOfB w0)) (ronNeedE (ronOfFieldsB gs))) := by
          simp [ronOfFieldsB, ronNeedE]
        rw [h1] at hfuel
        omega
      have hsuppw : (supportedTopB sh0 || supportedFieldB sh0) = true := by
        rw [hsupf]; simp
      cases gs with
      | nil =>
        have hfs : fs = [] := by
          cases fs with
          | nil => rfl
          | cons f fs' => simp [conformsFieldsB] at hcrest
        subst hfs
        have hsf : serializeFields [(n0, w0)] ++ ')' :: rest
            = n0 ++ ':' :: (serializeRValue w0 ++ ')' :: rest) := by
          simp [serializeFields]
        rw [hsf]
        simp only [parseStructFieldsF]
        have hcons : n0 ++ ':' :: (serializeRValue w0 ++ ')' :: rest)
            = hc :: (hcs ++ ':' :: (serializeRValue w0 ++ ')' :: rest)) := by
          rw [hn0]; simp
        rw [hcons, trimStartS_identStart hcstart, ← hcons]
        split
        · next heq => simp at heq
        · next hne2 =>
          have htw : (n0 ++ ':' :: (serializeRValue w0 ++ ')' :: rest)).takeWhile
              isIdentChar = n0 :=
            takeWhile_append_stop isIdentChar n0
              (':' :: (serializeRValue w0 ++ ')' :: rest)) hcall
              (by change (!isIdentChar ':') = true; decide)
          have hemp : n0.isEmpty = false := by rw [hn0]; rfl
          have hdrop : (n0 ++ ':' :: (serializeRValue w0 ++ ')' :: rest)).drop n0.length
              = ':' :: (serializeRValue w0 ++ ')' :: rest) := List.drop_left _ _
          have htrim1 : trimStartS (':' :: (serializeRValue w0 ++ ')' :: rest))
              = ':' :: (serializeRValue w0 ++ ')' :: rest) :=
            trimStartS_not_ws (by decide) _
          have hpv : parseValueF n (serializeRValue w0 ++ ')' :: rest)
              = some (ronOfB w0, ')' :: rest) :=
            ihA sh0 w0 (')' :: rest) hsuppw hcw
              (by change (!isNumChar ')') = true; decide) hfuelw
          have htrim2 : trimStartS (')' :: rest) = ')' :: rest :=
            trimStartS_not_ws (by decide) _
          simp only [htw, hemp, Bool.false_eq_true, if_false, hdrop, htrim1, hpv,
            htrim2, ronOfFieldsB]
      | cons g1 gs' =>
        obtain ⟨n1, sh1, fs2, hfs⟩ : ∃ n1 sh1 fs2, fs = (n1, sh1) :: fs2 := by
          cases fs with
          | nil => simp [conformsFieldsB] at hcrest
          | cons f fs2 => exact ⟨f.1, f.2, fs2, rfl⟩
        subst hfs
        obtain ⟨m1, w1, hg1⟩ : ∃ m1 w1, g1 = (m1, w1) := ⟨g1.1, g1.2, rfl⟩
        subst hg1
        have hm1 : m1 = n1 := by
          simp only [conformsFieldsB, Bool.and_eq_true] at hcrest
          exact eq_of_beq hcrest.1.1
        subst m1
        have hvalid1 : validIdentB n1 = true := by
          simp only [fieldsOkB, Bool.and_eq_true] at hfokrest
          exact hfokrest.1.1.1
        obtain ⟨d, ds, hn1, hdstart, _⟩ := validIdentB_parts hvalid1
        obtain ⟨t1, ht1⟩ := serializeFields_cons_shape n1 w1 gs'
        have hsf : serializeFields ((n0, w0) :: (n1, w1) :: gs') ++ ')' :: rest
            = n0 ++ ':' :: (serializeRValue w0
                ++ ',' :: (serializeFields ((n1, w1) :: gs') ++ ')' :: rest)) := by
          simp [serializeFields]
        rw [hsf]
        simp only [parseStructFieldsF]
        have hcons : n0 ++ ':' :: (serializeRValue w0
              ++ ',' :: (serializeFields ((n1, w1) :: gs') ++ ')' :: rest))
            = hc :: (hcs ++ ':' :: (serializeRValue w0
                ++ ',' :: (serializeFields ((n1, w1) :: gs') ++ ')' :: rest))) := by
          rw [hn0]; simp
        rw [hcons, trimStartS_identStart hcstart, ← hcons]
        split
        · next heq => simp at heq
        · next hne2 =>
          have htw : (n0 ++ ':' :: (serializeRValue w0
                ++ ',' :: (serializeFields ((n1, w1) :: gs') ++ ')' :: rest))).takeWhile
              isIdentChar = n0 :=
            takeWhile_append_stop isIdentChar n0
              (':' :: (serializeRValue w0
                ++ ',' :: (serializeFields ((n1, w1) :: gs') ++ ')' :: rest))) hcall
              (by change (!isIdentChar ':') = true; decide)
          have hemp : n0.isEmpty = false := by rw [hn0]; rfl
          have hdrop : (n0 ++ ':' :: (serializeRValue w0
                ++ ',' :: (serializeFields ((n1, w1) :: gs') ++ ')' :: rest))).drop
              n0.length
              = ':' :: (serializeRValue w0
                  ++ ',' :: (serializeFields ((n1, w1) :: gs') ++ ')' :: rest)) :=
            List.drop_left _ _
          have htrim1 : trimStartS (':' :: (serializeRValue w0
                ++ ',' :: (serializeFields ((n1, w1) :: gs') ++ ')' :: rest)))
              = ':' :: (serializeRValue w0
                  ++ ',' :: (serializeFields ((n1, w1) :: gs') ++ ')' :: rest)) :=
            trimStartS_not_ws (by decide) _
          have hpv : parseValueF n (serializeRValue w0
                ++ ',' :: (serializeFields ((n1, w1) :: gs') ++ ')' :: rest))
              = some (ronOfB w0,
                  ',' :: (serializeFields ((n1, w1) :: gs') ++ ')' :: rest)) :=
            ihA sh0 w0 _ hsuppw hcw
              (by change (!isNumChar ',') = true; decide) hfuelw
          have htrim2 : trimStartS
              (',' :: (serializeFields ((n1, w1) :: gs') ++ ')' :: rest))
              = ',' :: (serializeFields ((n1, w1) :: gs') ++ ')' :: rest) :=
            trimStartS_not_ws (by decide) _
          have hsf1 : serializeFields ((n1, w1) :: gs') ++ ')' :: rest
              = d :: (ds ++ ':' :: (t1 ++ ')' :: rest)) := by
            rw [ht1, hn1]
            simp
          have htrim3 : trimStartS (serializeFields ((n1, w1) :: gs') ++ ')' :: rest)
              = serializeFields ((n1, w1) :: gs') ++ ')' :: rest := by
            rw [hsf1]
            exact trimStartS_identStart hdstart _
          have hhd : ((serializeFields ((n1, w1) :: gs') ++ ')' :: rest).headD ' '
              == ')') = false := by
            rw [hsf1]
            exact beq_false_of_pred isIdentStart hdstart (by decide)
          have hrec : parseStructFieldsF n
              (serializeFields ((n1, w1) :: gs') ++ ')' :: rest)
              = some (ronOfFieldsB ((n1, w1) :: gs'), rest) :=
            ihB ((n1, sh1) :: fs2) ((n1, w1) :: gs') rest hfokrest hcrest
              (by simp) hfuelrest
          simp only [htw, hemp, Bool.false_eq_true, if_false, hdrop, htrim1, hpv,
            htrim2, htrim3, hhd, hrec, ronOfFieldsB, Option.map_some]
          rfl
    -- Part C: tuple items
    · intro elems ev rest hallf hconfE hne hfuel
      obtain ⟨sh0, ss, rfl⟩ : ∃ sh0 ss, elems = sh0 :: ss := by
        cases elems with
        | nil => exact absurd rfl hne
        | cons sh0 ss => exact ⟨sh0, ss, rfl⟩
      obtain ⟨w0, ws, rfl⟩ : ∃ w0 ws, ev = w0 :: ws := by
        cases ev with
        | nil => simp [conformsElemsB] at hconfE
        | cons w0 ws => exact ⟨w0, ws, rfl⟩
      have hsh0 : sh0 = .floatS := by
        simp only [List.all_cons, Bool.and_eq_true] at hallf
        cases sh0 with
        | floatS => rfl
        | unitS a => simp at hallf
        | structS a b => simp at hallf
        | tupleS a b => simp at hallf
      subst hsh0
      have hconfE' := hconfE
      simp only [conformsElemsB, Bool.and_eq_true] at hconfE'
      obtain ⟨hcw0, hcrest⟩ := hconfE'
      have hsuppw : (supportedTopB TypeShape.floatS || supportedFieldB TypeShape.floatS)
          = true := by simp [supportedTopB, supportedFieldB]
      have hallrest : (ss.all fun sh => match sh with
          | TypeShape.floatS => true | _ => false) = true := by
        simp only [List.all_cons, Bool.and_eq_true] at hallf
        exact hallf.2
      have hro : ronOfElemsB (w0 :: ws) = ronOfB w0 :: ronOfElemsB ws := by
        simp [ronOfElemsB]
      rw [hro]
      have hfuelw : ronNeed (ronOfB w0) ≤ n := by
        have h1 : ronNeedL (ronOfElemsB (w0 :: ws))
            = 1 + max (ronNeed (ronOfB w0)) (ronNeedL (ronOfElemsB ws)) := by
          simp [ronOfElemsB, ronNeedL]
        rw [h1] at hfuel
        omega
      have hfuelrest : ronNeedL (ronOfElemsB ws) ≤ n := by
        have h1 : ronNeedL (ronOfElemsB (w0 :: ws))
            = 1 + max (ronNeed (ronOfB w0)) (ronNeedL (ronOfElemsB ws)) := by
          simp [ronOfElemsB, ronNeedL]
        rw [h1] at hfuel
        omega
      cases ws with
      | nil =>
        have hss : ss = [] := by
          cases ss with
          | nil => rfl
          | cons s ss' => simp [conformsElemsB] at hcrest
        subst hss
        have hse : serializeElems [w0] ++ ')' :: rest
            = serializeRValue w0 ++ ')' :: rest := by
          simp [serializeElems]
        rw [hse]
        simp only [parseTupleItemsF]
        have hpv : parseValueF n (serializeRValue w0 ++ ')' :: rest)
            = some (ronOfB w0, ')' :: rest) :=
          ihA .floatS w0 (')' :: rest) hsuppw hcw0
            (by change (!isNumChar ')') = true; decide) hfuelw
        have htrim2 : trimStartS (')' :: rest) = ')' :: rest :=
          trimStartS_not_ws (by decide) _
        simp only [hpv, htrim2, ronOfElemsB]
      | cons w1 ws' =>
        obtain ⟨sh1, ss', hss⟩ : ∃ sh1 ss', ss = sh1 :: ss' := by
          cases ss with
          | nil => simp [conformsElemsB] at hcrest
          | cons sh1 ss' => exact ⟨sh1, ss', rfl⟩
        subst hss
        have hsh1 : sh1 = .floatS := by
          simp only [List.all_cons, Bool.and_eq_true] at hallrest
          cases sh1 with
          | floatS => rfl
          | unitS a => simp at hallrest
          | structS a b => simp at hallrest
          | tupleS a b => simp at hallrest
        subst hsh1
        have hw1 : ∃ tok1, w1 = RValue.float tok1 := by
          simp only [conformsElemsB, Bool.and_eq_true] at hcrest
          cases w1 with
          | float tok1 => exact ⟨tok1, rfl⟩
          | unitV a => simp [conformsB] at hcrest
          | structV a => simp [conformsB] at hcrest
          | tupleV a => simp [conformsB] at hcrest
        obtain ⟨tok1, rfl⟩ := hw1
        have htok1 : validTokB tok1 = true := by
          simp only [conformsElemsB, Bool.and_eq_true, conformsB] at hcrest
          exact hcrest.1
        obtain ⟨c1, toks1, htk, hstart1, _⟩ := validTokB_parts htok1
        obtain ⟨t1, ht1⟩ := serializeElems_cons_shape (RValue.float tok1) ws'
        have hse : serializeElems (w0 :: RValue.float tok1 :: ws') ++ ')' :: rest
            = serializeRValue w0
                ++ ',' :: (serializeElems (RValue.float tok1 :: ws') ++ ')' :: rest) := by
          simp [serializeElems]
        rw [hse]
        simp only [parseTupleItemsF]
        have hpv : parseValueF n (serializeRValue w0
              ++ ',' :: (serializeElems (RValue.float tok1 :: ws') ++ ')' :: rest))
            = some (ronOfB w0,
                ',' :: (serializeElems (RValue.float tok1 :: ws') ++ ')' :: rest)) :=
          ihA .floatS w0 _ hsuppw hcw0
            (by change (!isNumChar ',') = true; decide) hfuelw
        have htrim2 : trimStartS
            (',' :: (serializeElems (RValue.float tok1 :: ws') ++ ')' :: rest))
            = ',' :: (serializeElems (RValue.float tok1 :: ws') ++ ')' :: rest) :=
          trimStartS_not_ws (by decide) _
        have hse1 : serializeElems (RValue.float tok1 :: ws') ++ ')' :: rest
            = c1 :: (toks1 ++ (t1 ++ ')' :: rest)) := by
          rw [ht1]
          have : serializeRValue (RValue.float tok1) = c1 :: toks1 := by
            rw [htk]; simp [serializeRValue]
          rw [this]
          simp
        have htrim3 : trimStartS (serializeElems (RValue.float tok1 :: ws') ++ ')' :: rest)
            = serializeElems (RValue.float tok1 :: ws') ++ ')' :: rest := by
          rw [hse1]
          exact trimStartS_numStart hstart1 _
        have hhd : ((serializeElems (RValue.float tok1 :: ws') ++ ')' :: rest).headD ' '
            == ')') = false := by
          rw [hse1]
          exact beq_false_of_pred isNumStart hstart1 (by decide)
        have hrec : parseTupleItemsF n
            (serializeElems (RValue.float tok1 :: ws') ++ ')' :: rest)
            = some (ronOfElemsB (RValue.float tok1 :: ws'), rest) :=
          ihC (TypeShape.floatS :: ss') (RValue.float tok1 :: ws') rest hallrest hcrest
            (by simp) hfuelrest
        simp only [hpv, htrim2, htrim3, hhd, Bool.false_eq_true, if_false, hrec]
        rfl

theorem printParseTyped :
    ∀ fuel : Nat,
      (∀ (sh : TypeShape) (v : RValue) (rest : Str),
        (supportedTopB sh || supportedFieldB sh) = true →
        conformsB sh v = true →
        (match rest with | [] => true | c :: _ => !isNumChar c) = true →
        shapeNeed sh ≤ fuel →
        parseShapeF fuel sh (serializeRValue v ++ rest) = some (v, rest)) ∧
      (∀ (fields : List (Str × TypeShape)) (fv : List (Str × RValue)) (rest : Str),
        fieldsOkB fields = true →
        conformsFieldsB fields fv = true →
        fieldsNeed fields ≤ fuel →
        parseFieldsSF fuel fields (serializeFields fv ++ ')' :: rest)
          = some (fv, rest)) ∧
      (∀ (elems : List TypeShape) (ev : List RValue) (rest : Str),
        (elems.all fun sh => match sh with | .floatS => true | _ => false) = true →
        conformsElemsB elems ev = true →
        elemsNeed elems ≤ fuel →
        parseElemsSF fuel elems (serializeElems ev ++ ')' :: rest)
          = some (ev, rest)) := by
  intro fuel
  induction fuel with
  | zero =>
    refine ⟨?_, ?_, ?_⟩
    · intro sh v rest _ _ _ hfuel
      cases sh <;> simp [shapeNeed] at hfuel
    · intro fields fv rest _ _ hfuel
      cases fields with
      | nil => simp [fieldsNeed] at hfuel
      | cons f fs =>
        obtain ⟨a, b⟩ := f
        simp [fieldsNeed] at hfuel
    · intro elems ev rest _ _ hfuel
      cases elems <;> simp [elemsNeed] at hfuel
  | succ n ih =>
    obtain ⟨ihA, ihB, ihC⟩ := ih
    refine ⟨?_, ?_, ?_⟩
    -- values against shapes
    · intro sh v rest hsupp hconf hstop hfuel
      cases sh with
      | floatS =>
        cases v with
        | unitV m => simp [conformsB] at hconf
        | structV fv => simp [conformsB] at hconf
        | tupleV ev => simp [conformsB] at hconf
        | float tok =>
          have hconf' : validTokB tok = true := by simpa [conformsB] using hconf
          obtain ⟨c0, toks, rfl, hstart, hall⟩ := validTokB_parts hconf'
          have hser : serializeRValue (.float (c0 :: toks)) = c0 :: toks := by
            simp [serializeRValue]
          rw [hser]
          simp only [List.cons_append, parseShapeF]
          rw [trimStartS_numStart hstart]
          simp only [hstart, if_true]
          rw [← List.cons_append]
          rw [takeWhile_append_stop isNumChar (c0 :: toks) rest hall hstop]
          rw [dropWhile_append_stop isNumChar (c0 :: toks) rest hall hstop]
      | unitS nm =>
        cases v with
        | float tok => simp [conformsB] at hconf
        | structV fv => simp [conformsB] at hconf
        | tupleV ev => simp [conformsB] at hconf
        | unitV m =>
          have hm : m = nm := by
            have := hconf
            simp only [conformsB] at this
            exact eq_of_beq this
          subst m
          have hser : serializeRValue (.unitV nm) = '(' :: [')'] := by
            simp [serializeRValue, lit]
          rw [hser]
          simp only [List.cons_append, List.nil_append, parseShapeF]
          rw [trimStartS_not_ws (by decide)]
          rfl
      | structS nm fields =>
        cases v with
        | float tok => simp [conformsB] at hconf
        | unitV m => simp [conformsB] at hconf
        | tupleV ev => simp [conformsB] at hconf
        | structV fv =>
          have hconfF : conformsFieldsB fields fv = true := by
            simpa [conformsB] using hconf
          have hfok : fieldsOkB fields = true := by
            have h1 : (!fields.isEmpty && fieldsOkB fields) = true := by
              simpa [supportedTopB, supportedFieldB, Bool.or_self] using hsupp
            simp only [Bool.and_eq_true] at h1
            exact h1.2
          have hser : serializeRValue (.structV fv) ++ rest
              = '(' :: (serializeFields fv ++ ')' :: rest) := by
            simp [serializeRValue]
          rw [hser]
          simp only [parseShapeF]
          have hskip : skipOptionalName nm
              (trimStartS ('(' :: (serializeFields fv ++ ')' :: rest)))
              = '(' :: (serializeFields fv ++ ')' :: rest) := by
            rw [trimStartS_not_ws (by decide)]
            unfold skipOptionalName
            rw [if_neg]
            simp only [List.headD_cons]
            rw [show isIdentStart '(' = false from by decide]
            simp
          have hfuel' : fieldsNeed fields ≤ n := by
            simp only [shapeNeed] at hfuel
            omega
          have hpf : parseFieldsSF n fields (serializeFields fv ++ ')' :: rest)
              = some (fv, rest) := ihB fields fv rest hfok hconfF hfuel'
          simp only [hskip, hpf]
          rfl
      | tupleS nm elems =>
        cases v with
        | float tok => simp [conformsB] at hconf
        | unitV m => simp [conformsB] at hconf
        | structV fv => simp [conformsB] at hconf
        | tupleV ev =>
          have hconfE : conformsElemsB elems ev = true := by
            simpa [conformsB] using hconf
          have hallf : (elems.all fun sh => match sh with
              | TypeShape.floatS => true | _ => false) = true := by
            have h1 : (!elems.isEmpty
                && elems.all fun sh => match sh with
                  | TypeShape.floatS => true | _ => false) = true := by
              simpa [supportedTopB, supportedFieldB, Bool.or_false] using hsupp
            simp only [Bool.and_eq_true] at h1
            exact h1.2
          have hser : serializeRValue (.tupleV ev) ++ rest
              = '(' :: (serializeElems ev ++ ')' :: rest) := by
            simp [serializeRValue]
          rw [hser]
          simp only [parseShapeF]
          have hskip : skipOptionalName nm
              (trimStartS ('(' :: (serializeElems ev ++ ')' :: rest)))
              = '(' :: (serializeElems ev ++ ')' :: rest) := by
            rw [trimStartS_not_ws (by decide)]
            unfold skipOptionalName
            rw [if_neg]
            simp only [List.headD_cons]
            rw [show isIdentStart '(' = false from by decide]
            simp
          have hfuel' : elemsNeed elems ≤ n := by
            simp only [shapeNeed] at hfuel
            omega
          have hpe : parseElemsSF n elems (serializeElems ev ++ ')' :: rest)
              = some (ev, rest) := ihC elems ev rest hallf hconfE hfuel'
          simp only [hskip, hpe]
          rfl
    -- declared fields in order
    · intro fields fv rest hfok hconfF hfuel
      cases fields with
      | nil =>
        have hfv : fv = [] := by
          cases fv with
          | nil => rfl
          | cons g gs => simp [conformsFieldsB] at hconfF
        subst hfv
        have hser : serializeFields ([] : List (Str × RValue)) ++ ')' :: rest
            = ')' :: rest := by simp [serializeFields]
        rw [hser]
        simp only [parseFieldsSF]
        rw [trimStartS_not_ws (by decide)]
        rfl
      | cons f0 fs =>
        obtain ⟨n0, sh0, hf0⟩ : ∃ n0 sh0, f0 = (n0, sh0) := ⟨f0.1, f0.2, rfl⟩
        subst hf0
        obtain ⟨m0, w0, gs, hfv⟩ : ∃ m0 w0 gs, fv = (m0, w0) :: gs := by
          cases fv with
          | nil => simp [conformsFieldsB] at hconfF
          | cons g gs => exact ⟨g.1, g.2, gs, rfl⟩
        subst hfv
        have hconfF' := hconfF
        simp only [conformsFieldsB, Bool.and_eq_true] at hconfF'
        obtain ⟨⟨hmn, hcw⟩, hcrest⟩ := hconfF'
        have hm0 : m0 = n0 := eq_of_beq hmn
        subst m0
        simp only [fieldsOkB, Bool.and_eq_true] at hfok
        obtain ⟨⟨⟨hvalid, _⟩, hsupf⟩, hfokrest⟩ := hfok
        obtain ⟨hc, hcs, hn0, hcstart, hcall⟩ := validIdentB_parts hvalid
        have hsuppw : (supportedTopB sh0 || supportedFieldB sh0) = true := by
          rw [hsupf]; simp
        have hfuelw : shapeNeed sh0 ≤ n := by
          simp only [fieldsNeed] at hfuel
          omega
        have hfuelrest : fieldsNeed fs ≤ n := by
          simp only [fieldsNeed] at hfuel
          omega
        cases gs with
        | nil =>
          have hfs : fs = [] := by
            cases fs with
            | nil => rfl
            | cons f fs' => simp [conformsFieldsB] at hcrest
          subst hfs
          have hsf : serializeFields [(n0, w0)] ++ ')' :: rest
              = n0 ++ ':' :: (serializeRValue w0 ++ ')' :: rest) := by
            simp [serializeFields]
          rw [hsf]
          simp only [parseFieldsSF]
          have htrim0 : trimStartS (n0 ++ ':' :: (serializeRValue w0 ++ ')' :: rest))
              = n0 ++ ':' :: (serializeRValue w0 ++ ')' :: rest) := by
            rw [hn0]
            rw [List.cons_append]
            exact trimStartS_identStart hcstart _
          have htw : (n0 ++ ':' :: (serializeRValue w0 ++ ')' :: rest)).takeWhile
              isIdentChar = n0 :=
            takeWhile_append_stop isIdentChar n0
              (':' :: (serializeRValue w0 ++ ')' :: rest)) hcall
              (by change (!isIdentChar ':') = true; decide)
          have hdw : (n0 ++ ':' :: (serializeRValue w0 ++ ')' :: rest)).dropWhile
              isIdentChar = ':' :: (serializeRValue w0 ++ ')' :: rest) :=
            dropWhile_append_stop isIdentChar n0
              (':' :: (serializeRValue w0 ++ ')' :: rest)) hcall
              (by change (!isIdentChar ':') = true; decide)
          have hhd : (n0 ++ ':' :: (serializeRValue w0 ++ ')' :: rest)).headD ' '
              = hc := by rw [hn0]; rfl
          have htrim1 : trimStartS (':' :: (serializeRValue w0 ++ ')' :: rest))
              = ':' :: (serializeRValue w0 ++ ')' :: rest) :=
            trimStartS_not_ws (by decide) _
          have hpv : parseShapeF n sh0 (serializeRValue w0 ++ ')' :: rest)
              = some (w0, ')' :: rest) :=
            ihA sh0 w0 (')' :: rest) hsuppw hcw
              (by change (!isNumChar ')') = true; decide) hfuelw
          have htrim2 : trimStartS (')' :: rest) = ')' :: rest :=
            trimStartS_not_ws (by decide) _
          have hcond : (isIdentStart ((trimStartS (n0 ++ ':'
                :: (serializeRValue w0 ++ ')' :: rest))).headD ' ')
              && (trimStartS (n0 ++ ':'
                :: (serializeRValue w0 ++ ')' :: rest))).takeWhile isIdentChar
                  = n0) = true := by
            rw [htrim0, hhd, htw]
            simp [hcstart]
          rw [if_pos hcond]
          simp only [htrim0, hdw, htrim1, hpv, htrim2]
          exact if_pos rfl
        | cons g1 gs' =>
          obtain ⟨n1, sh1, fs2, hfs⟩ : ∃ n1 sh1 fs2, fs = (n1, sh1) :: fs2 := by
            cases fs with
            | nil => simp [conformsFieldsB] at hcrest
            | cons f fs2 => exact ⟨f.1, f.2, fs2, rfl⟩
          subst hfs
          have hsf : serializeFields ((n0, w0) :: g1 :: gs') ++ ')' :: rest
              = n0 ++ ':' :: (serializeRValue w0
                  ++ ',' :: (serializeFields (g1 :: gs') ++ ')' :: rest)) := by
            simp [serializeFields]
          rw [hsf]
          simp only [parseFieldsSF]
          have htrim0 : trimStartS (n0 ++ ':' :: (serializeRValue w0
                ++ ',' :: (serializeFields (g1 :: gs') ++ ')' :: rest)))
              = n0 ++ ':' :: (serializeRValue w0
                  ++ ',' :: (serializeFields (g1 :: gs') ++ ')' :: rest)) := by
            rw [hn0]
            rw [List.cons_append]
            exact trimStartS_identStart hcstart _
          have htw : (n0 ++ ':' :: (serializeRValue w0
                ++ ',' :: (serializeFields (g1 :: gs') ++ ')' :: rest))).takeWhile
              isIdentChar = n0 :=
            takeWhile_append_stop isIdentChar n0 _ hcall
              (by change (!isIdentChar ':') = true; decide)
          have hdw : (n0 ++ ':' :: (serializeRValue w0
                ++ ',' :: (serializeFields (g1 :: gs') ++ ')' :: rest))).dropWhile
              isIdentChar
              = ':' :: (serializeRValue w0
                  ++ ',' :: (serializeFields (g1 :: gs') ++ ')' :: rest)) :=
            dropWhile_append_stop isIdentChar n0 _ hcall
              (by change (!isIdentChar ':') = true; decide)
          have hhd : (n0 ++ ':' :: (serializeRValue w0
                ++ ',' :: (serializeFields (g1 :: gs') ++ ')' :: rest))).headD ' '
              = hc := by rw [hn0]; rfl
          have htrim1 : trimStartS (':' :: (serializeRValue w0
                ++ ',' :: (serializeFields (g1 :: gs') ++ ')' :: rest)))
              = ':' :: (serializeRValue w0
                  ++ ',' :: (serializeFields (g1 :: gs') ++ ')' :: rest)) :=
            trimStartS_not_ws (by decide) _
          have hpv : parseShapeF n sh0 (serializeRValue w0
                ++ ',' :: (serializeFields (g1 :: gs') ++ ')' :: rest))
              = some (w0, ',' :: (serializeFields (g1 :: gs') ++ ')' :: rest)) :=
            ihA sh0 w0 _ hsuppw hcw
              (by change (!isNumChar ',') = true; decide) hfuelw
          have htrim2 : trimStartS
              (',' :: (serializeFields (g1 :: gs') ++ ')' :: rest))
              = ',' :: (serializeFields (g1 :: gs') ++ ')' :: rest) :=
            trimStartS_not_ws (by decide) _
          have hrec : parseFieldsSF n ((n1, sh1) :: fs2)
              (serializeFields (g1 :: gs') ++ ')' :: rest)
              = some (g1 :: gs', rest) :=
            ihB ((n1, sh1) :: fs2) (g1 :: gs') rest hfokrest hcrest hfuelrest
          have hcond : (isIdentStart ((trimStartS (n0 ++ ':'
                :: (serializeRValue w0
                  ++ ',' :: (serializeFields (g1 :: gs') ++ ')' :: rest)))).headD ' ')
              && (trimStartS (n0 ++ ':'
                :: (serializeRValue w0
                  ++ ',' :: (serializeFields (g1 :: gs') ++ ')' :: rest)))).takeWhile
                    isIdentChar = n0) = true := by
            rw [htrim0, hhd, htw]
            simp [hcstart]
          rw [if_pos hcond]
          simp only [htrim0, hdw, htrim1, hpv, htrim2, hrec]
          rfl
    -- declared elements in order
    · intro elems ev rest hallf hconfE hfuel
      cases elems with
      | nil =>
        have hev : ev = [] := by
          cases ev with
          | nil => rfl
          | cons w ws => simp [conformsElemsB] at hconfE
        subst hev
        have hser : serializeElems ([] : List RValue) ++ ')' :: rest
            = ')' :: rest := by simp [serializeElems]
        rw [hser]
        simp only [parseElemsSF]
        rw [trimStartS_not_ws (by decide)]
        rfl
      | cons sh0 ss =>
        obtain ⟨w0, ws, hev⟩ : ∃ w0 ws, ev = w0 :: ws := by
          cases ev with
          | nil => simp [conformsElemsB] at hconfE
          | cons w0 ws => exact ⟨w0, ws, rfl⟩
        subst hev
        have hsh0 : sh0 = .floatS := by
          simp only [List.all_cons, Bool.and_eq_true] at hallf
          cases sh0 with
          | floatS => rfl
          | unitS a => simp at hallf
          | structS a b => simp at hallf
          | tupleS a b => simp at hallf
        subst hsh0
        have hconfE' := hconfE
        simp only [conformsElemsB, Bool.and_eq_true] at hconfE'
        obtain ⟨hcw0, hcrest⟩ := hconfE'
        have hallrest : (ss.all fun sh => match sh with
            | TypeShape.floatS => true | _ => false) = true := by
          simp only [List.all_cons, Bool.and_eq_true] at hallf
          exact hallf.2
        have hsuppw : (supportedTopB TypeShape.floatS
            || supportedFieldB TypeShape.floatS) = true := by
          simp [supportedTopB, supportedFieldB]
        have hfuelw : shapeNeed TypeShape.floatS ≤ n := by
          simp only [elemsNeed, shapeNeed] at hfuel ⊢
          omega
        have hfuelrest : elemsNeed ss ≤ n := by
          simp only [elemsNeed] at hfuel
          omega
        cases ws with
        | nil =>
          have hss : ss = [] := by
            cases ss with
            | nil => rfl
            | cons s ss' => simp [conformsElemsB] at hcrest
          subst hss
          have hse : serializeElems [w0] ++ ')' :: rest
              = serializeRValue w0 ++ ')' :: rest := by
            simp [serializeElems]
          rw [hse]
          simp only [parseElemsSF]
          have hpv : parseShapeF n TypeShape.floatS (serializeRValue w0 ++ ')' :: rest)
              = some (w0, ')' :: rest) :=
            ihA .floatS w0 (')' :: rest) hsuppw hcw0
              (by change (!isNumChar ')') = true; decide) hfuelw
          have htrim2 : trimStartS (')' :: rest) = ')' :: rest :=
            trimStartS_not_ws (by decide) _
          simp only [hpv, htrim2, List.isEmpty_nil, if_true]
        | cons w1 ws' =>
          obtain ⟨sh1, ss', hss⟩ : ∃ sh1 ss', ss = sh1 :: ss' := by
            cases ss with
            | nil => simp [conformsElemsB] at hcrest
            | cons sh1 ss' => exact ⟨sh1, ss', rfl⟩
          subst hss
          have hse : serializeElems (w0 :: w1 :: ws') ++ ')' :: rest
              = serializeRValue w0
                  ++ ',' :: (serializeElems (w1 :: ws') ++ ')' :: rest) := by
            simp [serializeElems]
          rw [hse]
          simp only [parseElemsSF]
          have hpv : parseShapeF n TypeShape.floatS (serializeRValue w0
                ++ ',' :: (serializeElems (w1 :: ws') ++ ')' :: rest))
              = some (w0, ',' :: (serializeElems (w1 :: ws') ++ ')' :: rest)) :=
            ihA .floatS w0 _ hsuppw hcw0
              (by change (!isNumChar ',') = true; decide) hfuelw
          have htrim2 : trimStartS
              (',' :: (serializeElems (w1 :: ws') ++ ')' :: rest))
              = ',' :: (serializeElems (w1 :: ws') ++ ')' :: rest) :=
            trimStartS_not_ws (by decide) _
          have hrec : parseElemsSF n (sh1 :: ss')
              (serializeElems (w1 :: ws') ++ ')' :: rest)
              = some (w1 :: ws', rest) :=
            ihC (sh1 :: ss') (w1 :: ws') rest hallrest hcrest hfuelrest
          simp only [hpv, htrim2, hrec]
          rfl

theorem not_mem_of_all (q : Char → Bool) (l : Str) (c : Char)
    (hall : l.all q = true) (hq : q c = false) : c ∉ l := by
  intro hmem
  have := List.all_eq_true.mp hall c hmem
  rw [hq] at this
  cases this

theorem mem_of_containsSub (c : Char) (p : Str) :
    ∀ s, containsSub s (c :: p) = true → c ∈ s := by
  intro s
  induction s with
  | nil =>
    intro h
    simp [containsSub, findSubstrIdx] at h
  | cons x xs ih =>
    intro h
    by_cases hp : (c :: p).isPrefixOf (x :: xs) = true
    · simp only [List.isPrefixOf, Bool.and_eq_true] at hp
      have hcx : c = x := eq_of_beq hp.1
      simp [hcx]
    · simp only [containsSub, findSubstrIdx] at h
      rw [if_neg hp] at h
      cases hfi : findSubstrIdx (c :: p) xs with
      | none => rw [hfi] at h; simp at h
      | some i =>
        have hxs : c ∈ xs := ih (by simp [containsSub, hfi])
        exact List.mem_cons_of_mem x hxs

theorem escapeStr_id :
    ∀ s : Str, (∀ c ∈ s, (c == '"' || c == '\\') = false) → escapeStr s = s := by
  intro s
  induction s with
  | nil => intro _; rfl
  | cons c cs ih =>
    intro h
    have hc : (c == '"' || c == '\\') = false := h c (by simp)
    have hcs := ih (fun d hd => h d (by simp [hd]))
    simp [escapeStr, hc, hcs]

theorem validPathB_no_escape {p : Str} (h : validPathB p = true) :
    ∀ c ∈ p, (c == '"' || c == '\\') = false := by
  simp only [validPathB, Bool.and_eq_true] at h
  intro c hc
  have hcp := List.all_eq_true.mp h.2 c hc
  simp only [Bool.or_eq_false_iff]
  constructor
  · exact beq_false_of_pred (fun c => isIdentChar c || c == ':') hcp (by decide)
  · exact beq_false_of_pred (fun c => isIdentChar c || c == ':') hcp (by decide)

theorem validIdent_no_escape {s : Str} (h : s.all isIdentChar = true) :
    ∀ c ∈ s, (c == '"' || c == '\\') = false := by
  intro c hc
  have hcp := List.all_eq_true.mp h c hc
  simp only [Bool.or_eq_false_iff]
  exact ⟨beq_false_of_pred isIdentChar hcp (by decide),
    beq_false_of_pred isIdentChar hcp (by decide)⟩

theorem stripFloatWrappers_noop {s : Str}
    (h : containsSub s floatWrapPat = false) : stripFloatWrappers s = s := by
  show stripFloatLoopF (s.length + 1) s = s
  simp [stripFloatLoopF, h]

theorem bracketToParen_noop {s : Str} (h : (s.headD ' ' == '[') = false) :
    bracketToParen s = s := by
  unfold bracketToParen
  split
  · next hcond =>
    rw [Bool.and_eq_true] at hcond
    rw [hcond.1] at h
    cases h
  · rfl

theorem serializeFields_intercalate :
    ∀ fv : List (Str × RValue),
      serializeFields fv
        = intercalateComma (fv.map (fun p => p.1 ++ ':' :: serializeRValue p.2))
  | [] => rfl
  | [(n, v)] => rfl
  | (n, v) :: (g :: gs) => by
    have ih := serializeFields_intercalate (g :: gs)
    simp only [serializeFields, List.map_cons, intercalateComma]
    rw [ih, List.map_cons]

theorem serializeElems_intercalate :
    ∀ ev : List RValue,
      serializeElems ev = intercalateComma (ev.map serializeRValue)
  | [] => rfl
  | [v] => rfl
  | v :: (w :: ws) => by
    have ih := serializeElems_intercalate (w :: ws)
    simp only [serializeElems, List.map_cons, intercalateComma]
    rw [ih, List.map_cons]

mutual

theorem ronNeed_le_serLen : ∀ v : RValue,
    ronNeed (ronOfB v) ≤ (serializeRValue v).length + 1
  | .float tok => by simp [ronOfB, ronNeed, serializeRValue]
  | .unitV m => by simp [ronOfB, ronNeed, serializeRValue, lit]
  | .structV fv => by
    have h := ronNeedE_le_serLen fv
    simp only [ronOfB, ronNeed, serializeRValue, List.length_cons, List.length_append]
    omega
  | .tupleV ev => by
    have h := ronNeedL_le_serLen ev
    simp only [ronOfB, ronNeed, serializeRValue, List.length_cons, List.length_append]
    omega

theorem ronNeedE_le_serLen : ∀ fv : List (Str × RValue),
    ronNeedE (ronOfFieldsB fv) ≤ (serializeFields fv).length + 2
  | [] => by simp [ronOfFieldsB, ronNeedE, serializeFields]
  | [(n, v)] => by
    have h := ronNeed_le_serLen v
    simp only [ronOfFieldsB, ronNeedE, ronNeed, serializeFields, List.length_append,
      List.length_cons]
    omega
  | (n, v) :: (g :: gs) => by
    have h1 := ronNeed_le_serLen v
    have h2 := ronNeedE_le_serLen (g :: gs)
    have e1 : ronOfFieldsB ((n, v) :: g :: gs)
        = (.strV n, ronOfB v) :: ronOfFieldsB (g :: gs) := rfl
    have e2 : ronNeedE ((RonValue.strV n, ronOfB v) :: ronOfFieldsB (g :: gs))
        = 1 + max 1 (max (ronNeed (ronOfB v)) (ronNeedE (ronOfFieldsB (g :: gs)))) := rfl
    have e3 : serializeFields ((n, v) :: g :: gs)
        = n ++ ':' :: serializeRValue v ++ ',' :: serializeFields (g :: gs) := by
      simp [serializeFields]
    rw [e1, e2, e3]
    simp only [List.length_append, List.length_cons]
    omega

theorem ronNeedL_le_serLen : ∀ ev : List RValue,
    ronNeedL (ronOfElemsB ev) ≤ (serializeElems ev).length + 2
  | [] => by simp [ronOfElemsB, ronNeedL, serializeElems]
  | [v] => by
    have h := ronNeed_le_serLen v
    simp only [ronOfElemsB, ronNeedL, serializeElems]
    omega
  | v :: (w :: ws) => by
    have h1 := ronNeed_le_serLen v
    have h2 := ronNeedL_le_serLen (w :: ws)
    have e1 : ronOfElemsB (v :: w :: ws) = ronOfB v :: ronOfElemsB (w :: ws) := rfl
    have e2 : ronNeedL (ronOfB v :: ronOfElemsB (w :: ws))
        = 1 + max (ronNeed (ronOfB v)) (ronNeedL (ronOfElemsB (w :: ws))) := rfl
    have e3 : serializeElems (v :: w :: ws)
        = serializeRValue v ++ ',' :: serializeElems (w :: ws) := by
      simp [serializeElems]
    rw [e1, e2, e3]
    simp only [List.length_append, List.length_cons]
    omega

end

mutual

theorem ronNeed_le_toStrLen : ∀ w : RonValue, ronNeed w ≤ (ronToStr w).length + 1
  | .unit => by simp [ronNeed, ronToStr, lit]
  | .boolV b => by cases b <;> simp [ronNeed, ronToStr, lit]
  | .num tok => by simp [ronNeed, ronToStr]
  | .strV s => by simp [ronNeed, ronToStr]
  | .seq l => by
    have h := ronNeedL_le_toStrLen l
    simp only [ronNeed, ronToStr, List.length_cons, List.length_append]
    omega
  | .map m => by
    have h := ronNeedE_le_toStrLen m
    simp only [ronNeed, ronToStr, List.length_cons, List.length_append]
    omega

theorem ronNeedL_le_toStrLen : ∀ l : List RonValue,
    ronNeedL l ≤ (ronSeqToStr l).length + 2
  | [] => by simp [ronNeedL, ronSeqToStr]
  | [v] => by
    have h := ronNeed_le_toStrLen v
    simp only [ronNeedL, ronSeqToStr]
    omega
  | v :: (w :: ws) => by
    have h1 := ronNeed_le_toStrLen v
    have h2 := ronNeedL_le_toStrLen (w :: ws)
    have e2 : ronNeedL (v :: w :: ws) = 1 + max (ronNeed v) (ronNeedL (w :: ws)) := rfl
    have e3 : ronSeqToStr (v :: w :: ws)
        = ronToStr v ++ ',' :: ronSeqToStr (w :: ws) := by
      simp [ronSeqToStr]
    rw [e2, e3]
    simp only [List.length_append, List.length_cons]
    omega

theorem ronNeedE_le_toStrLen : ∀ m : List (RonValue × RonValue),
    ronNeedE m ≤ (ronMapToStr m).length + 2
  | [] => by simp [ronNeedE, ronMapToStr]
  | [(k, v)] => by
    have h1 := ronNeed_le_toStrLen k
    have h2 := ronNeed_le_toStrLen v
    have e2 : ronNeedE [(k, v)] = 1 + max (ronNeed k) (max (ronNeed v) 1) := rfl
    have e3 : ronMapToStr [(k, v)] = ronToStr k ++ ':' :: ronToStr v := rfl
    rw [e2, e3]
    simp only [List.length_append, List.length_cons]
    omega
  | (k, v) :: (e :: es) => by
    have h1 := ronNeed_le_toStrLen k
    have h2 := ronNeed_le_toStrLen v
    have h3 := ronNeedE_le_toStrLen (e :: es)
    have e2 : ronNeedE ((k, v) :: e :: es)
        = 1 + max (ronNeed k) (max (ronNeed v) (ronNeedE (e :: es))) := rfl
    have e3 : ronMapToStr ((k, v) :: e :: es)
        = ronToStr k ++ ':' :: ronToStr v ++ ',' :: ronMapToStr (e :: es) := by
      simp [ronMapToStr]
    rw [e2, e3]
    simp only [List.length_append, List.length_cons]
    omega

end

mutual

/-- Generic values that occur on the clean / convert fallback path: numeric
leaves with well-formed tokens, string keys that are well-formed identifiers,
and maps of such entries. -/
def ronGoodB : RonValue → Bool
  | .num tok => validTokB tok
  | .strV s => validIdentB s
  | .map m => ronGoodEntriesB m
  | _ => false

/-- Entries of a good map: identifier string keys with good values. -/
def ronGoodEntriesB : List (RonValue × RonValue) → Bool
  | [] => true
  | (k, v) :: rest =>
    (match k with | .strV n => validIdentB n | _ => false)
      && ronGoodB v && ronGoodEntriesB rest

end

mutual

theorem ronToStr_no_paren : ∀ w : RonValue, ronGoodB w = true → '(' ∉ ronToStr w
  | .unit => by intro h; simp [ronGoodB] at h
  | .boolV b => by intro h; simp [ronGoodB] at h
  | .num tok => by
    intro h
    have hall : tok.all isNumChar = true := by
      simp only [ronGoodB, validTokB, Bool.and_eq_true] at h
      exact h.2
    simp only [ronToStr]
    exact not_mem_of_all isNumChar tok '(' hall (by decide)
  | .strV s => by
    intro h
    have hv : validIdentB s = true := by simpa [ronGoodB] using h
    have hall : s.all isIdentChar = true := by
      simp only [validIdentB, Bool.and_eq_true] at hv
      exact hv.2
    have hesc : escapeStr s = s := escapeStr_id s (validIdent_no_escape hall)
    simp only [ronToStr, hesc]
    intro hmem
    simp only [List.mem_cons, List.mem_append, List.mem_singleton] at hmem
    rcases hmem with (h1 | h2) | h3
    · exact absurd h1 (by decide)
    · exact not_mem_of_all isIdentChar s '(' hall (by decide) h2
    · exact absurd h3 (by decide)
  | .seq l => by intro h; simp [ronGoodB] at h
  | .map m => by
    intro h
    have hm : ronGoodEntriesB m = true := by simpa [ronGoodB] using h
    have hrec := ronMapToStr_no_paren m hm
    simp only [ronToStr]
    intro hmem
    simp only [List.mem_cons, List.mem_append, List.mem_singleton] at hmem
    rcases hmem with (h1 | h2) | h3
    · exact absurd h1 (by decide)
    · exact hrec h2
    · exact absurd h3 (by decide)

theorem ronMapToStr_no_paren : ∀ m : List (RonValue × RonValue),
    ronGoodEntriesB m = true → '(' ∉ ronMapToStr m
  | [] => by intro _ hmem; simp [ronMapToStr] at hmem
  | [(k, v)] => by
    intro h hmem
    simp only [ronGoodEntriesB, Bool.and_eq_true] at h
    obtain ⟨⟨hk, hv⟩, _⟩ := h
    have hkg : ronGoodB k = true := by
      cases k with
      | strV n => simpa [ronGoodB] using hk
      | unit => simp at hk
      | boolV b => simp at hk
      | num t => simp at hk
      | seq l => simp at hk
      | map mm => simp at hk
    simp only [ronMapToStr, List.mem_append, List.mem_cons] at hmem
    rcases hmem with h1 | h2 | h3
    · exact ronToStr_no_paren k hkg h1
    · exact absurd h2 (by decide)
    · exact ronToStr_no_paren v hv h3
  | (k, v) :: (e :: es) => by
    intro h hmem
    simp only [ronGoodEntriesB, Bool.and_eq_true] at h
    obtain ⟨⟨hk, hv⟩, hrest⟩ := h
    have hkg : ronGoodB k = true := by
      cases k with
      | strV n => simpa [ronGoodB] using hk
      | unit => simp at hk
      | boolV b => simp at hk
      | num t => simp at hk
      | seq l => simp at hk
      | map mm => simp at hk
    have hrec := ronMapToStr_no_paren (e :: es) (by
      simpa [ronGoodEntriesB] using hrest)
    simp only [ronMapToStr, List.mem_append, List.mem_cons] at hmem
    rcases hmem with (h1 | h2 | h3) | h4 | h5
    · exact ronToStr_no_paren k hkg h1
    · exact absurd h2 (by decide)
    · exact ronToStr_no_paren v hv h3
    · exact absurd h4 (by decide)
    · exact hrec h5

end

mutual

theorem ronOfB_good : ∀ (sh : TypeShape) (v : RValue),
    supportedFieldB sh = true → conformsB sh v = true →
    ronGoodB (ronOfB v) = true
  | .floatS, v => by
    intro _ hconf
    cases v with
    | float tok => simpa [ronOfB, ronGoodB, conformsB] using hconf
    | unitV m => simp [conformsB] at hconf
    | structV fv => simp [conformsB] at hconf
    | tupleV ev => simp [conformsB] at hconf
  | .unitS n, v => by
    intro hsup _
    simp [supportedFieldB] at hsup
  | .tupleS n elems, v => by
    intro hsup _
    simp [supportedFieldB] at hsup
  | .structS n fields, v => by
    intro hsup hconf
    cases v with
    | float tok => simp [conformsB] at hconf
    | unitV m => simp [conformsB] at hconf
    | tupleV ev => simp [conformsB] at hconf
    | structV fv =>
      have hfok : fieldsOkB fields = true := by
        simp only [supportedFieldB, Bool.and_eq_true] at hsup
        exact hsup.2
      have hcf : conformsFieldsB fields fv = true := by
        simpa [conformsB] using hconf
      have h := ronOfFieldsB_good fields fv hfok hcf
      simpa [ronOfB, ronGoodB] using h

theorem ronOfFieldsB_good :
    ∀ (fields : List (Str × TypeShape)) (fv : List (Str × RValue)),
    fieldsOkB fields = true → conformsFieldsB fields fv = true →
    ronGoodEntriesB (ronOfFieldsB fv) = true
  | fields, [] => by
    intro _ _
    simp [ronOfFieldsB, ronGoodEntriesB]
  | [], (m, w) :: gs => by
    intro _ hconf
    simp [conformsFieldsB] at hconf
  | (n, sh) :: fs, (m, w) :: gs => by
    intro hfok hconf
    simp only [conformsFieldsB, Bool.and_eq_true] at hconf
    obtain ⟨⟨hmn, hcw⟩, hrest⟩ := hconf
    simp only [fieldsOkB, Bool.and_eq_true] at hfok
    obtain ⟨⟨⟨hvalid, _⟩, hsupf⟩, hfokrest⟩ := hfok
    have hm : m = n := eq_of_beq hmn
    subst m
    have h1 := ronOfB_good sh w hsupf hcw
    have h2 := ronOfFieldsB_good fs gs hfokrest hrest
    simp only [ronOfFieldsB, ronGoodEntriesB, Bool.and_eq_true]
    exact ⟨⟨hvalid, h1⟩, h2⟩

end

theorem printParseRon :
    ∀ fuel : Nat,
      (∀ (w : RonValue) (rest : Str),
        ronGoodB w = true →
        delimOkB rest = true →
        ronNeed w ≤ fuel →
        parseValueF fuel (ronToStr w ++ rest) = some (w, rest)) ∧
      (∀ (m : List (RonValue × RonValue)) (rest : Str),
        ronGoodEntriesB m = true →
        ronNeedE m ≤ fuel →
        parseMapEntriesF fuel (ronMapToStr m ++ rbrace :: rest) = some (m, rest)) := by
  intro fuel
  induction fuel with
  | zero =>
    constructor
    · intro w rest _ _ hfuel
      have := ronNeed_pos w
      omega
    · intro m rest _ hfuel
      have := ronNeedE_pos m
      omega
  | succ n ih =>
    obtain ⟨ihA, ihB⟩ := ih
    constructor
    -- good values
    · intro w rest hgood hdelim hfuel
      cases w with
      | unit => simp [ronGoodB] at hgood
      | boolV b => simp [ronGoodB] at hgood
      | seq l => simp [ronGoodB] at hgood
      | num tok =>
        have htok : validTokB tok = true := by simpa [ronGoodB] using hgood
        obtain ⟨c0, toks, rfl, hstart, hall⟩ := validTokB_parts htok
        have hser : ronToStr (.num (c0 :: toks)) = c0 :: toks := by simp [ronToStr]
        rw [hser]
        simp only [List.cons_append, parseValueF]
        rw [trimStartS_numStart hstart]
        have h1 : (c0 == '"') = false := beq_false_of_pred isNumStart hstart (by decide)
        have h2 : (c0 == lbrace) = false := beq_false_of_pred isNumStart hstart (by decide)
        have h3 : (c0 == '[') = false := beq_false_of_pred isNumStart hstart (by decide)
        have h4 : (c0 == '(') = false := beq_false_of_pred isNumStart hstart (by decide)
        simp only [h1, h2, h3, h4, Bool.false_eq_true, if_false, hstart, if_true]
        rw [← List.cons_append]
        rw [takeWhile_append_stop isNumChar (c0 :: toks) rest hall hdelim]
        rw [dropWhile_append_stop isNumChar (c0 :: toks) rest hall hdelim]
      | strV s =>
        have hser : ronToStr (.strV s) ++ rest = '"' :: (escapeStr s ++ '"' :: rest) := by
          simp [ronToStr]
        rw [hser]
        have hstep : parseValueF (n + 1) ('"' :: (escapeStr s ++ '"' :: rest))
            = (parseStrBody (escapeStr s ++ '"' :: rest)).map
                (fun p => (RonValue.strV p.1, p.2)) := rfl
        rw [hstep, parseStrBody_escape]
        rfl
      | map m =>
        have hser : ronToStr (.map m) ++ rest
            = lbrace :: (ronMapToStr m ++ rbrace :: rest) := by
          simp [ronToStr]
        rw [hser]
        have hstep : parseValueF (n + 1) (lbrace :: (ronMapToStr m ++ rbrace :: rest))
            = (parseMapEntriesF n (ronMapToStr m ++ rbrace :: rest)).map
                (fun p => (RonValue.map p.1, p.2)) := rfl
        have hgm : ronGoodEntriesB m = true := by simpa [ronGoodB] using hgood
        have hfm : ronNeedE m ≤ n := by
          simp only [ronNeed] at hfuel
          omega
        rw [hstep, ihB m rest hgm hfm]
        rfl
    -- good map entries
    · intro m rest hgood hfuel
      cases m with
      | nil =>
        have hser : ronMapToStr [] ++ rbrace :: rest = rbrace :: rest := by
          simp [ronMapToStr]
        rw [hser]
        rfl
      | cons kv m' =>
        obtain ⟨k, w⟩ := kv
        have hgood' := hgood
        simp only [ronGoodEntriesB, Bool.and_eq_true] at hgood'
        obtain ⟨⟨hk, hw⟩, hrest⟩ := hgood'
        obtain ⟨str, hkeq⟩ : ∃ s, k = .strV s := by
          cases k with
          | strV s => exact ⟨s, rfl⟩
          | unit => simp at hk
          | boolV b => simp at hk
          | num t => simp at hk
          | seq l => simp at hk
          | map mm => simp at hk
        subst hkeq
        have hgk : ronGoodB (RonValue.strV str) = true := by simpa [ronGoodB] using hk
        cases m' with
        | nil =>
          have hfuel' : ronNeed w ≤ n ∧ 1 ≤ n := by
            have e2 : ronNeedE [(RonValue.strV str, w)]
                = 1 + max 1 (max (ronNeed w) 1) := rfl
            rw [e2] at hfuel
            omega
          have hser : ronMapToStr [(RonValue.strV str, w)] ++ rbrace :: rest
              = ronToStr (RonValue.strV str)
                  ++ ':' :: (ronToStr w ++ rbrace :: rest) := by
            simp [ronMapToStr]
          rw [hser]
          have hpv0 := ihA (RonValue.strV str) (':' :: (ronToStr w ++ rbrace :: rest))
            hgk (by change (!isNumChar ':') = true; decide) (by
              change (1 : Nat) ≤ n
              exact hfuel'.2)
          have heq : ronToStr (RonValue.strV str)
                ++ ':' :: (ronToStr w ++ rbrace :: rest)
              = '"' :: (escapeStr str ++ '"' :: (':' :: (ronToStr w ++ rbrace :: rest))) := by
            simp [ronToStr]
          rw [heq] at hpv0 ⊢
          have hpv1 := ihA w (rbrace :: rest) hw
            (by change (!isNumChar rbrace) = true; decide) hfuel'.1
          have hq1 : (('"' : Char) == rbrace) = false := by decide
          have htr1 : trimStartS ('"' :: (escapeStr str
                ++ '"' :: (':' :: (ronToStr w ++ rbrace :: rest))))
              = '"' :: (escapeStr str ++ '"' :: (':' :: (ronToStr w ++ rbrace :: rest))) :=
            trimStartS_not_ws (by decide) _
          have htr2 : trimStartS (':' :: (ronToStr w ++ rbrace :: rest))
              = ':' :: (ronToStr w ++ rbrace :: rest) :=
            trimStartS_not_ws (by decide) _
          have htr3 : trimStartS (rbrace :: rest) = rbrace :: rest :=
            trimStartS_not_ws (by decide) _
          simp only [parseMapEntriesF, htr1, hq1, Bool.false_eq_true, if_false,
            hpv0, htr2, hpv1, htr3]
          rfl
        | cons e es =>
          have hfuel' : ronNeed w ≤ n ∧ 1 ≤ n ∧ ronNeedE (e :: es) ≤ n := by
            have e2 : ronNeedE ((RonValue.strV str, w) :: e :: es)
                = 1 + max 1 (max (ronNeed w) (ronNeedE (e :: es))) := rfl
            rw [e2] at hfuel
            omega
          have hser : ronMapToStr ((RonValue.strV str, w) :: e :: es) ++ rbrace :: rest
              = ronToStr (RonValue.strV str)
                  ++ ':' :: (ronToStr w
                    ++ ',' :: (ronMapToStr (e :: es) ++ rbrace :: rest)) := by
            simp [ronMapToStr]
          rw [hser]
          have hpv0 := ihA (RonValue.strV str)
            (':' :: (ronToStr w ++ ',' :: (ronMapToStr (e :: es) ++ rbrace :: rest)))
            hgk (by change (!isNumChar ':') = true; decide) (by
              change (1 : Nat) ≤ n
              exact hfuel'.2.1)
          have heq : ronToStr (RonValue.strV str)
                ++ ':' :: (ronToStr w ++ ',' :: (ronMapToStr (e :: es) ++ rbrace :: rest))
              = '"' :: (escapeStr str ++ '"' :: (':' :: (ronToStr w
                  ++ ',' :: (ronMapToStr (e :: es) ++ rbrace :: rest)))) := by
            simp [ronToStr]
          rw [heq] at hpv0 ⊢
          have hpv1 := ihA w (',' :: (ronMapToStr (e :: es) ++ rbrace :: rest)) hw
            (by change (!isNumChar ',') = true; decide) hfuel'.1
          have hrec := ihB (e :: es) rest hrest hfuel'.2.2
          have hq1 : (('"' : Char) == rbrace) = false := by decide
          have htr1 : trimStartS ('"' :: (escapeStr str ++ '"' :: (':' :: (ronToStr w
                ++ ',' :: (ronMapToStr (e :: es) ++ rbrace :: rest)))))
              = '"' :: (escapeStr str ++ '"' :: (':' :: (ronToStr w
                  ++ ',' :: (ronMapToStr (e :: es) ++ rbrace :: rest)))) :=
            trimStartS_not_ws (by decide) _
          have htr2 : trimStartS (':' :: (ronToStr w
                ++ ',' :: (ronMapToStr (e :: es) ++ rbrace :: rest)))
              = ':' :: (ronToStr w ++ ',' :: (ronMapToStr (e :: es) ++ rbrace :: rest)) :=
            trimStartS_not_ws (by decide) _
          have htr3 : trimStartS (',' :: (ronMapToStr (e :: es) ++ rbrace :: rest))
              = ',' :: (ronMapToStr (e :: es) ++ rbrace :: rest) :=
            trimStartS_not_ws (by decide) _
          simp only [parseMapEntriesF, htr1, hq1, Bool.false_eq_true, if_false,
            hpv0, htr2, hpv1, htr3, hrec]
          rfl

theorem mem_of_containsSub_all {pat : Str} {c : Char} (hc : c ∈ pat) :
    ∀ s, containsSub s pat = true → c ∈ s := by
  intro s
  induction s with
  | nil =>
    intro h
    cases pat with
    | nil => cases hc
    | cons p ps => simp [containsSub, findSubstrIdx, List.isEmpty] at h
  | cons x xs ih =>
    intro h
    by_cases hp : pat.isPrefixOf (x :: xs) = true
    · have hpre : pat <+: x :: xs := List.isPrefixOf_iff_prefix.mp hp
      exact hpre.subset hc
    · simp only [containsSub, findSubstrIdx] at h
      rw [if_neg hp] at h
      cases hfi : findSubstrIdx pat xs with
      | none => rw [hfi] at h; simp at h
      | some i => exact List.mem_cons_of_mem x (ih (by simp [containsSub, hfi]))

theorem ronFromStr_toStr {w : RonValue} (h : ronGoodB w = true) :
    ronFromStr (ronToStr w) = some w := by
  unfold ronFromStr
  have hb := ronNeed_le_toStrLen w
  have hpp := (printParseRon (2 * (ronToStr w).length + 2)).1 w [] h rfl (by omega)
  rw [List.append_nil] at hpp
  rw [hpp]
  simp [trimStartS]

theorem containsFloat_false_good {w : RonValue} (h : ronGoodB w = true) :
    containsSub (ronToStr w) floatWrapPat = false := by
  cases hc : containsSub (ronToStr w) floatWrapPat
  · rfl
  · exact absurd (mem_of_containsSub_all (show '(' ∈ floatWrapPat by decide)
      (ronToStr w) hc) (ronToStr_no_paren w h)

theorem bracketToParen_noop_good {w : RonValue} (h : ronGoodB w = true) :
    bracketToParen (ronToStr w) = ronToStr w := by
  apply bracketToParen_noop
  cases w with
  | unit => simp [ronGoodB] at h
  | boolV b => simp [ronGoodB] at h
  | seq l => simp [ronGoodB] at h
  | num tok =>
    have htok : validTokB tok = true := by simpa [ronGoodB] using h
    obtain ⟨c0, toks, rfl, hstart, _⟩ := validTokB_parts htok
    have hser : ronToStr (.num (c0 :: toks)) = c0 :: toks := by simp [ronToStr]
    rw [hser]
    simp only [List.headD_cons]
    exact beq_false_of_pred isNumStart hstart (by decide)
  | strV s =>
    have hser : ronToStr (.strV s) = '"' :: (escapeStr s ++ ['"']) := by
      simp [ronToStr]
    rw [hser]
    simp only [List.headD_cons]
    decide
  | map m =>
    have hser : ronToStr (.map m) = lbrace :: (ronMapToStr m ++ [rbrace]) := by
      simp [ronToStr]
    rw [hser]
    simp only [List.headD_cons]
    decide

theorem cleanConvert :
    ∀ fuel : Nat,
      (∀ (sh : TypeShape) (v : RValue),
        supportedFieldB sh = true →
        conformsB sh v = true →
        cleanNeed (ronOfB v) ≤ fuel →
        cleanRonValueF fuel (ronToStr (ronOfB v)) = serializeRValue v) ∧
      (∀ (fields : List (Str × TypeShape)) (fv : List (Str × RValue)),
        fieldsOkB fields = true →
        conformsFieldsB fields fv = true →
        cleanNeedE (ronOfFieldsB fv) ≤ fuel →
        convertFieldsF fuel (ronOfFieldsB fv)
          = fv.map (fun p => p.1 ++ ':' :: serializeRValue p.2)) := by
  intro fuel
  induction fuel with
  | zero =>
    constructor
    · intro sh v _ _ hfuel
      have h1 : 1 ≤ cleanNeed (ronOfB v) := by
        cases ronOfB v <;> simp [cleanNeed]
      omega
    · intro fields fv _ hconf hfuel
      cases fv with
      | nil => simp [ronOfFieldsB, convertFieldsF]
      | cons g gs =>
        obtain ⟨gn, gv⟩ := g
        have e : cleanNeedE (ronOfFieldsB ((gn, gv) :: gs))
            = 1 + max (cleanNeed (ronOfB gv)) (cleanNeedE (ronOfFieldsB gs)) := rfl
        rw [e] at hfuel
        omega
  | succ n ih =>
    obtain ⟨ihA, ihB⟩ := ih
    constructor
    · intro sh v hsup hconf hfuel
      have hgood := ronOfB_good sh v hsup hconf
      cases sh with
      | unitS nm => simp [supportedFieldB] at hsup
      | tupleS nm elems => simp [supportedFieldB] at hsup
      | floatS =>
        cases v with
        | unitV m => simp [conformsB] at hconf
        | structV fv => simp [conformsB] at hconf
        | tupleV ev => simp [conformsB] at hconf
        | float tok =>
          simp only [cleanRonValueF]
          rw [stripFloatWrappers_noop (containsFloat_false_good hgood),
            bracketToParen_noop_good hgood, ronFromStr_toStr hgood]
          have hro : ronOfB (RValue.float tok) = .num tok := rfl
          rw [hro]
          simp [ronToStr, serializeRValue]
      | structS nm fields =>
        cases v with
        | unitV m => simp [conformsB] at hconf
        | float tok => simp [conformsB] at hconf
        | tupleV ev => simp [conformsB] at hconf
        | structV fv =>
          have hfok : fieldsOkB fields = true := by
            simp only [supportedFieldB, Bool.and_eq_true] at hsup
            exact hsup.2
          have hcf : conformsFieldsB fields fv = true := by
            simpa [conformsB] using hconf
          have hfuelE : cleanNeedE (ronOfFieldsB fv) ≤ n := by
            have e : cleanNeed (ronOfB (RValue.structV fv))
                = 1 + cleanNeedE (ronOfFieldsB fv) := rfl
            rw [e] at hfuel
            omega
          simp only [cleanRonValueF]
          rw [stripFloatWrappers_noop (containsFloat_false_good hgood),
            bracketToParen_noop_good hgood, ronFromStr_toStr hgood]
          have hro : ronOfB (RValue.structV fv) = .map (ronOfFieldsB fv) := rfl
          rw [hro]
          simp only []
          rw [ihB fields fv hfok hcf hfuelE]
          rw [← serializeFields_intercalate]
          simp [serializeRValue]
    · intro fields fv hfok hconf hfuel
      cases fv with
      | nil => simp [ronOfFieldsB, convertFieldsF]
      | cons g gs =>
        obtain ⟨m0, w0⟩ := g
        obtain ⟨n0, sh0, fs, hfields⟩ : ∃ n0 sh0 fs, fields = (n0, sh0) :: fs := by
          cases fields with
          | nil => simp [conformsFieldsB] at hconf
          | cons f fs => exact ⟨f.1, f.2, fs, rfl⟩
        subst hfields
        simp only [conformsFieldsB, Bool.and_eq_true] at hconf
        obtain ⟨⟨hmn, hcw⟩, hcrest⟩ := hconf
        have hm0 : m0 = n0 := eq_of_beq hmn
        subst m0
        simp only [fieldsOkB, Bool.and_eq_true] at hfok
        obtain ⟨⟨⟨hvalid, _⟩, hsupf⟩, hfokrest⟩ := hfok
        have e1 : ronOfFieldsB ((n0, w0) :: gs)
            = (.strV n0, ronOfB w0) :: ronOfFieldsB gs := rfl
        rw [e1]
        have e2 : cleanNeedE ((RonValue.strV n0, ronOfB w0) :: ronOfFieldsB gs)
            = 1 + max (cleanNeed (ronOfB w0)) (cleanNeedE (ronOfFieldsB gs)) := rfl
        rw [e1, e2] at hfuel
        have e3 : convertFieldsF (n + 1) ((RonValue.strV n0, ronOfB w0) :: ronOfFieldsB gs)
            = (n0 ++ ':' :: cleanRonValueF n (ronToStr (ronOfB w0)))
                :: convertFieldsF n (ronOfFieldsB gs) := rfl
        rw [e3]
        rw [ihA sh0 w0 hsupf hcw (by omega)]
        rw [ihB fs gs hfokrest hcrest (by omega)]
        simp

theorem clean_ron_value_print (sh : TypeShape) {v : RValue}
    (hsup : supportedFieldB sh = true) (hconf : conformsB sh v = true) :
    clean_ron_value (ronToStr (ronOfB v)) = serializeRValue v := by
  have hgood := ronOfB_good sh v hsup hconf
  have hfuel : cleanNeed (ronOfB v) ≤ cleanFuelStr (ronToStr (ronOfB v)) := by
    unfold cleanFuelStr
    rw [stripFloatWrappers_noop (containsFloat_false_good hgood),
      bracketToParen_noop_good hgood, ronFromStr_toStr hgood]
    cases hro : ronOfB v <;> simp only [cleanNeed] <;> omega
  exact (cleanConvert (cleanFuelStr (ronToStr (ronOfB v)))).1 sh v hsup hconf hfuel

theorem convert_map_print (fields : List (Str × TypeShape)) {fv : List (Str × RValue)}
    (hfok : fieldsOkB fields = true) (hconf : conformsFieldsB fields fv = true) :
    convert_map_to_ron_struct (ronOfFieldsB fv) = serializeRValue (.structV fv) := by
  unfold convert_map_to_ron_struct
  rw [(cleanConvert (cleanNeedE (ronOfFieldsB fv) + 1)).2 fields fv hfok hconf (by omega)]
  rw [← serializeFields_intercalate]
  simp [serializeRValue]

theorem convert_seq_print (elems : List TypeShape) {ev : List RValue}
    (hall : (elems.all fun sh => match sh with
      | TypeShape.floatS => true | _ => false) = true)
    (hconf : conformsElemsB elems ev = true) :
    convert_seq_to_tuple (ronOfElemsB ev) = serializeRValue (.tupleV ev) := by
  unfold convert_seq_to_tuple
  have hmap : ∀ (es : List TypeShape) (vs : List RValue),
      (es.all fun sh => match sh with
        | TypeShape.floatS => true | _ => false) = true →
      conformsElemsB es vs = true →
      (ronOfElemsB vs).map (fun w => clean_ron_value (ronToStr w))
        = vs.map serializeRValue := by
    intro es vs
    induction vs generalizing es with
    | nil => intro _ _; simp [ronOfElemsB]
    | cons w ws ihw =>
      intro ha hc
      obtain ⟨sh0, ss, hes⟩ : ∃ sh0 ss, es = sh0 :: ss := by
        cases es with
        | nil => simp [conformsElemsB] at hc
        | cons sh0 ss => exact ⟨sh0, ss, rfl⟩
      subst hes
      simp only [conformsElemsB, Bool.and_eq_true] at hc
      simp only [List.all_cons, Bool.and_eq_true] at ha
      have hsh0 : sh0 = .floatS := by
        cases sh0 with
        | floatS => rfl
        | unitS a => simp at ha
        | structS a b => simp at ha
        | tupleS a b => simp at ha
      subst hsh0
      have hone : clean_ron_value (ronToStr (ronOfB w)) = serializeRValue w :=
        clean_ron_value_print .floatS (by simp [supportedFieldB]) hc.1
      have e1 : ronOfElemsB (w :: ws) = ronOfB w :: ronOfElemsB ws := rfl
      rw [e1]
      simp only [List.map_cons, hone]
      rw [ihw ss ha.2 hc.2]
  rw [hmap elems ev hall hconf, ← serializeElems_intercalate]
  simp [serializeRValue]

theorem serializeRValue_head {sh : TypeShape} {v : RValue}
    (hsup : supportedTopB sh = true) (hconf : conformsB sh v = true) :
    ∃ c t, serializeRValue v = c :: t ∧ isWs c = false ∧ (c == '"') = false := by
  cases sh with
  | floatS => simp [supportedTopB] at hsup
  | unitS nm =>
    cases v with
    | unitV m =>
      exact ⟨'(', [')'], by simp [serializeRValue, lit], by decide, by decide⟩
    | float tok => simp [conformsB] at hconf
    | structV fv => simp [conformsB] at hconf
    | tupleV ev => simp [conformsB] at hconf
  | structS nm fields =>
    cases v with
    | structV fv =>
      exact ⟨'(', serializeFields fv ++ [')'], by simp [serializeRValue],
        by decide, by decide⟩
    | float tok => simp [conformsB] at hconf
    | unitV m => simp [conformsB] at hconf
    | tupleV ev => simp [conformsB] at hconf
  | tupleS nm elems =>
    cases v with
    | tupleV ev =>
      exact ⟨'(', serializeElems ev ++ [')'], by simp [serializeRValue],
        by decide, by decide⟩
    | float tok => simp [conformsB] at hconf
    | unitV m => simp [conformsB] at hconf
    | structV fv => simp [conformsB] at hconf

theorem reflectSerializeText_shape {path : Str} (hpath : validPathB path = true)
    (v : RValue) :
    reflectSerializeText path v
      = lbrace :: (('"' :: path ++ lit "\":") ++ (serializeRValue v ++ [rbrace])) := by
  have hesc : escapeStr path = path := escapeStr_id path (validPathB_no_escape hpath)
  simp [reflectSerializeText, hesc, lit]

theorem reflect_data_cons {path : Str} (hpath : validPathB path = true)
    (v : RValue) :
    reflectSerializeText path v
      = lbrace :: ('"' :: (path ++ '"' :: ':' :: (serializeRValue v ++ [rbrace]))) := by
  have hesc : escapeStr path = path := escapeStr_id path (validPathB_no_escape hpath)
  simp [reflectSerializeText, hesc, lit]

theorem findSubstrIdx_reflect {path : Str} (hpath : validPathB path = true)
    (v : RValue) :
    findSubstrIdx ('"' :: path ++ lit "\":") (reflectSerializeText path v)
      = some 1 := by
  rw [reflectSerializeText_shape hpath v]
  have hstep : findSubstrIdx ('"' :: path ++ lit "\":")
      (lbrace :: (('"' :: path ++ lit "\":") ++ (serializeRValue v ++ [rbrace])))
      = (findSubstrIdx ('"' :: path ++ lit "\":")
          (('"' :: path ++ lit "\":") ++ (serializeRValue v ++ [rbrace]))).map
            (fun i => i + 1) := rfl
  rw [hstep, findSubstrIdx_self_append]
  rfl

theorem drop_reflect {path : Str} (hpath : validPathB path = true) (v : RValue) :
    (reflectSerializeText path v).drop (1 + ('"' :: path ++ lit "\":").length)
      = serializeRValue v ++ [rbrace] := by
  rw [reflectSerializeText_shape hpath v]
  have h1 : 1 + ('"' :: path ++ lit "\":").length
      = ('"' :: path ++ lit "\":").length + 1 := by omega
  rw [h1, List.drop_succ_cons, List.drop_left]

theorem try_extract_reflect_none {path : Str} {sh : TypeShape} {v : RValue}
    (hpath : validPathB path = true) (hsup : supportedTopB sh = true)
    (hconf : conformsB sh v = true) :
    try_extract_ron_component path (reflectSerializeText path v) = none := by
  obtain ⟨c, t, hser, hws, hq⟩ := serializeRValue_head hsup hconf
  have hdrop := drop_reflect hpath v
  have htrim : trimStartS (serializeRValue v ++ [rbrace])
      = serializeRValue v ++ [rbrace] := by
    rw [hser, List.cons_append]
    exact trimStartS_not_ws hws _
  have hhd : ((serializeRValue v ++ [rbrace]).headD ' ') = c := by
    rw [hser]
    rfl
  simp only [try_extract_ron_component, findSubstrIdx_reflect hpath v, hdrop,
    htrim, hhd, hq, Bool.false_eq_true, if_false]

theorem extractUnit_reflect {path m : Str} (hpath : validPathB path = true) :
    extractUnitIdentifier path (reflectSerializeText path (.unitV m))
      = some (lit "()") := by
  have hdrop := drop_reflect hpath (.unitV m)
  have hser : serializeRValue (RValue.unitV m) ++ [rbrace]
      = '(' :: ')' :: [rbrace] := by
    simp [serializeRValue, lit]
  rw [hser] at hdrop
  simp only [extractUnitIdentifier, findSubstrIdx_reflect hpath (RValue.unitV m), hdrop]
  rfl

theorem parseMapEntries_reflect {path : Str} {sh : TypeShape} {v : RValue}
    (hpath : validPathB path = true)
    (hsup : supportedTopB sh = true) (hconf : conformsB sh v = true) :
    ∀ fuel, ronNeed (ronOfB v) + 2 ≤ fuel →
      parseMapEntriesF fuel
        ('"' :: (path ++ '"' :: ':' :: (serializeRValue v ++ [rbrace])))
        = some ([(.strV path, ronOfB v)], []) := by
  intro fuel hfuel
  have hpos := ronNeed_pos (ronOfB v)
  obtain ⟨f, rfl⟩ : ∃ f, fuel = f + 1 := ⟨fuel - 1, by omega⟩
  have htr1 : trimStartS ('"' :: (path ++ '"' :: ':' :: (serializeRValue v ++ [rbrace])))
      = '"' :: (path ++ '"' :: ':' :: (serializeRValue v ++ [rbrace])) :=
    trimStartS_not_ws (by decide) _
  have hq : (('"' : Char) == rbrace) = false := by decide
  have hkey : parseValueF f ('"' :: (path ++ '"' :: ':' :: (serializeRValue v ++ [rbrace])))
      = some (.strV path, ':' :: (serializeRValue v ++ [rbrace])) := by
    obtain ⟨g, rfl⟩ : ∃ g, f = g + 1 := ⟨f - 1, by omega⟩
    have hesc : escapeStr path = path := escapeStr_id path (validPathB_no_escape hpath)
    have hstep : parseValueF (g + 1)
        ('"' :: (path ++ '"' :: ':' :: (serializeRValue v ++ [rbrace])))
        = (parseStrBody (path ++ '"' :: ':' :: (serializeRValue v ++ [rbrace]))).map
            (fun p => (RonValue.strV p.1, p.2)) := rfl
    have hbody : parseStrBody (path ++ '"' :: ':' :: (serializeRValue v ++ [rbrace]))
        = some (path, ':' :: (serializeRValue v ++ [rbrace])) := by
      conv_lhs => rw [← hesc]
      exact parseStrBody_escape path _
    rw [hstep, hbody]
    rfl
  have hval : parseValueF f (serializeRValue v ++ [rbrace])
      = some (ronOfB v, [rbrace]) :=
    (printParseGeneric f).1 sh v [rbrace] (by rw [hsup]; rfl) hconf
      (by change (!isNumChar rbrace) = true; decide) (by omega)
  have htr2 : trimStartS (':' :: (serializeRValue v ++ [rbrace]))
      = ':' :: (serializeRValue v ++ [rbrace]) :=
    trimStartS_not_ws (by decide) _
  have htr3 : trimStartS ([rbrace] : Str) = [rbrace] :=
    trimStartS_not_ws (by decide) _
  simp only [parseMapEntriesF, htr1, hq, Bool.false_eq_true, if_false, hkey,
    htr2, hval, htr3]
  rfl

theorem ronFromStr_reflect {path : Str} {sh : TypeShape} {v : RValue}
    (hpath : validPathB path = true)
    (hsup : supportedTopB sh = true) (hconf : conformsB sh v = true) :
    ronFromStr (reflectSerializeText path v)
      = some (.map [(.strV path, ronOfB v)]) := by
  unfold ronFromStr
  rw [reflect_data_cons hpath v]
  have hlen : (serializeRValue v).length + 5
      ≤ (lbrace :: ('"' :: (path ++ '"' :: ':'
          :: (serializeRValue v ++ [rbrace])))).length := by
    simp only [List.length_cons, List.length_append]
    omega
  obtain ⟨f, hf⟩ : ∃ f, 2 * (lbrace :: ('"' :: (path ++ '"' :: ':'
      :: (serializeRValue v ++ [rbrace])))).length + 2 = f + 1 :=
    ⟨2 * (lbrace :: ('"' :: (path ++ '"' :: ':'
      :: (serializeRValue v ++ [rbrace])))).length + 1, by omega⟩
  rw [hf]
  have hrn := ronNeed_le_serLen v
  have hment := parseMapEntries_reflect hpath hsup hconf f (by omega)
  have htr0 : trimStartS (lbrace :: ('"' :: (path ++ '"' :: ':'
        :: (serializeRValue v ++ [rbrace]))))
      = lbrace :: ('"' :: (path ++ '"' :: ':' :: (serializeRValue v ++ [rbrace]))) :=
    trimStartS_not_ws (by decide) _
  have hc1 : (lbrace == '"') = false := by decide
  have hc2 : (lbrace == lbrace) = true := by decide
  simp only [parseValueF, htr0, hc1, Bool.false_eq_true, if_false, hc2, if_true,
    hment]
  rfl

theorem ronFromStrMap_reflect {path : Str} {sh : TypeShape} {v : RValue}
    (hpath : validPathB path = true)
    (hsup : supportedTopB sh = true) (hconf : conformsB sh v = true) :
    ronFromStrMap (reflectSerializeText path v) = some [(path, ronOfB v)] := by
  unfold ronFromStrMap
  have hcond : ((trimStartS (reflectSerializeText path v)).headD ' ' == lbrace)
      = true := by
    rw [reflect_data_cons hpath v]
    rw [trimStartS_not_ws (by decide)]
    rfl
  rw [if_pos hcond]
  rw [ronFromStr_reflect hpath hsup hconf]
  rfl

theorem extract_reflect {path : Str} {sh : TypeShape} {v : RValue}
    (hpath : validPathB path = true) (hsup : supportedTopB sh = true)
    (hconf : conformsB sh v = true) :
    extract_component_data path (reflectSerializeText path v)
      = some (serializeRValue v) := by
  unfold extract_component_data
  rw [try_extract_reflect_none hpath hsup hconf]
  rw [ronFromStrMap_reflect hpath hsup hconf]
  cases sh with
  | floatS => simp [supportedTopB] at hsup
  | unitS nm =>
    cases v with
    | float tok => simp [conformsB] at hconf
    | structV fv => simp [conformsB] at hconf
    | tupleV ev => simp [conformsB] at hconf
    | unitV m =>
      have hro : ronOfB (RValue.unitV m) = .unit := rfl
      have hla : lookupAssoc [(path, RonValue.unit)] path = some RonValue.unit := by
        simp [lookupAssoc]
      simp only [hro, hla]
      rw [extractUnit_reflect hpath]
      rfl
  | structS nm fields =>
    cases v with
    | float tok => simp [conformsB] at hconf
    | unitV m => simp [conformsB] at hconf
    | tupleV ev => simp [conformsB] at hconf
    | structV fv =>
      have hfok : fieldsOkB fields = true := by
        simp only [supportedTopB, Bool.and_eq_true] at hsup
        exact hsup.2
      have hcf : conformsFieldsB fields fv = true := by
        simpa [conformsB] using hconf
      have hro : ronOfB (RValue.structV fv) = .map (ronOfFieldsB fv) := rfl
      have hla : lookupAssoc [(path, RonValue.map (ronOfFieldsB fv))] path
          = some (RonValue.map (ronOfFieldsB fv)) := by
        simp [lookupAssoc]
      simp only [hro, hla]
      rw [convert_map_print fields hfok hcf]
  | tupleS nm elems =>
    cases v with
    | float tok => simp [conformsB] at hconf
    | unitV m => simp [conformsB] at hconf
    | structV fv => simp [conformsB] at hconf
    | tupleV ev =>
      have hall : (elems.all fun sh => match sh with
          | TypeShape.floatS => true | _ => false) = true := by
        simp only [supportedTopB, Bool.and_eq_true] at hsup
        exact hsup.2
      have hce : conformsElemsB elems ev = true := by
        simpa [conformsB] using hconf
      have hro : ronOfB (RValue.tupleV ev) = .seq (ronOfElemsB ev) := rfl
      have hla : lookupAssoc [(path, RonValue.seq (ronOfElemsB ev))] path
          = some (RonValue.seq (ronOfElemsB ev)) := by
        simp [lookupAssoc]
      simp only [hro, hla]
      rw [convert_seq_print elems hall hce]

theorem typedReflectDeserialize_print {sh : TypeShape} {v : RValue}
    (hsup : supportedTopB sh = true) (hconf : conformsB sh v = true) :
    typedReflectDeserialize sh (serializeRValue v) = some v := by
  unfold typedReflectDeserialize
  have hpp := (printParseTyped (shapeNeed sh + (serializeRValue v).length)).1 sh v []
    (by rw [hsup]; rfl) hconf rfl (by omega)
  rw [List.append_nil] at hpp
  rw [hpp]
  rfl

theorem deser_insert_print {r : TypeRegistration} {v : RValue}
    (hsup : supportedTopB r.shape = true) (hconf : conformsB r.shape v = true)
    (hrc : r.hasReflectComponent = true) :
    deserialize_and_insert_component [] r.typePath (serializeRValue v) r
      = .ok [(r.typePath, v)] := by
  have htd := typedReflectDeserialize_print hsup hconf
  have hins : insert_reflected_component [] r.typePath v r = .ok [(r.typePath, v)] := by
    unfold insert_reflected_component
    rw [hrc]
    simp
  unfold deserialize_and_insert_component
  cases hd : r.hasReflectDeserialize
  · simp only [hd, Bool.false_eq_true, if_false, try_typed_reflection_deserialize,
      htd, hins]
  · simp only [hd, if_true, try_reflect_deserialize, htd, hins]

theorem process_single_reflect {r : TypeRegistration} {v : RValue}
    (hsup : supportedTopB r.shape = true) (hconf : conformsB r.shape v = true)
    (hpath : validPathB r.typePath = true) (hrc : r.hasReflectComponent = true) :
    process_single_component [r] [] r.typePath
      (reflectSerializeText r.typePath v) = .ok [(r.typePath, v)] := by
  unfold process_single_component
  have hg : getWithTypePath [r] r.typePath = some r := by
    simp [getWithTypePath]
  rw [hg, extract_reflect hpath hsup hconf]
  exact deser_insert_print hsup hconf hrc

theorem serialize_reflect {r : TypeRegistration} {v : RValue}
    (helig : (is_bridge_component_check r || is_exposed_bevy_component r) = true)
    (hrc : r.hasReflectComponent = true) :
    serialize_entity_components [r] [(r.typePath, v)]
      = [(r.typePath, reflectSerializeText r.typePath v)] := by
  have hg : getWithTypePath [r] r.typePath = some r := by
    simp [getWithTypePath]
  have hskip : should_skip_component r = false := by
    cases hb : is_bridge_component_check r <;>
      cases hex : is_exposed_bevy_component r <;>
      simp_all [should_skip_component]
  simp only [serialize_entity_components, hg, hskip, Bool.false_eq_true, if_false,
    hrc, if_true]

/-- C1: round-trip idempotence.  For a registration `r` whose schema is a
supported component shape (struct, tuple struct of floats, or unit struct,
with nested-struct fields allowed), whose path is a well-formed type path,
which passes the exposure filter and carries `ReflectComponent` data, and a
conforming live value `v`: restoring a fresh entity from the map produced by
`serialize_entity_components` over an entity carrying exactly `v` yields that
entity carrying a component structurally equal to `v`, with one success and
no failures counted. -/
theorem C1_roundtrip (r : TypeRegistration) (v : RValue)
    (hsup : supportedTopB r.shape = true)
    (hconf : conformsB r.shape v = true)
    (hpath : validPathB r.typePath = true)
    (helig : (is_bridge_component_check r || is_exposed_bevy_component r) = true)
    (hrc : r.hasReflectComponent = true) :
    load_components_from_scene_data [r] []
      (serialize_entity_components [r] [(r.typePath, v)])
      = ([(r.typePath, v)], 1, 0) := by
  rw [serialize_reflect helig hrc]
  unfold load_components_from_scene_data
  simp only [loadComponentsAux, process_single_reflect hsup hconf hpath hrc]

/-- C1 witness: the `Health` example satisfies every hypothesis of the
round-trip theorem, and its serialize-then-restore cycle reproduces the
entity exactly. -/
theorem C1_roundtrip_witness :
    supportedTopB healthReg.shape = true ∧
    conformsB healthReg.shape healthVal = true ∧
    validPathB healthReg.typePath = true ∧
    (is_bridge_component_check healthReg || is_exposed_bevy_component healthReg)
      = true ∧
    healthReg.hasReflectComponent = true ∧
    load_components_from_scene_data [healthReg] []
      (serialize_entity_components [healthReg] [(healthReg.typePath, healthVal)])
      = ([(healthReg.typePath, healthVal)], 1, 0) :=
  ⟨by decide, by rfl, by decide, by decide, by decide,
    C1_roundtrip healthReg healthVal (by decide) (by rfl) (by decide) (by decide)
      (by decide)⟩
